import Mathlib

/-!
Shallow embedding of the `rule_kit` crate (src/utils.rs, src/error.rs,
src/traits.rs, src/engine.rs, src/builder.rs) and verification of the
specification's claims about it.

Rust's `Result<T, E>` is modelled by `Except E T`; `Vec<R>` by `List`;
the `u32` priority by `Nat` (only its order is ever used, and sorting is
invariant under the order-embedding of `u32` into `Nat`).  A trait object
implementing `Rule<C>` is modelled by a record of its methods.  Rust's
`slice::sort_by_key` is a stable sort; it is modelled by `List.mergeSort`,
which is likewise stable.
-/

namespace RuleKit

/-- Priority order from `src/utils.rs`: `Asc` (the `#[default]`) or `Desc`. -/
inductive PriorityOrder where
  | Asc
  | Desc
deriving Repr, DecidableEq

/-- The `Default` impl of `PriorityOrder` (`#[default]` on `Asc`). -/
def PriorityOrder.default : PriorityOrder := PriorityOrder.Asc

/-- Error taxonomy from `src/error.rs`: `RuleEngineError<E>` with variants
`Evaluation(E)`, `Application(E)` and the fallback `Unknown`. -/
inductive RuleEngineError (E : Type) where
  | Evaluation (e : E)
  | Application (e : E)
  | Unknown
deriving Repr, DecidableEq

/-- A value implementing the `Rule<C>` trait of `src/traits.rs`, modelled as the
record of its methods: `evaluate(&self, &C) -> Result<bool, RuleError>`,
`apply(&self, &C) -> Result<Output, RuleError>`, `priority(&self) -> u32`. -/
structure Rule (C O E : Type) where
  evaluate : C → Except E Bool
  apply : C → Except E O
  priority : Nat

/-- A value implementing the `MutableRule<C>` trait of `src/traits.rs`.
`apply(&mut self, &mut C) -> Result<(), RuleError>` mutates the context in
place, modelled as returning the new context.  (`apply` may also mutate the
rule's own state; within one pass each rule is visited in a single contiguous
block, so rule self-mutation is not observable by any pass-level property and
is not modelled.)  The hooks `before_apply`/`after_apply` return `()` and do
not touch the context; their invocations are recorded by the instrumented
semantics below. -/
structure MutableRule (C E : Type) where
  name : String
  priority : Nat
  evaluate : C → Except E Bool
  apply : C → Except E C

/-- Sorting step shared by `RuleEngine::new`, `MutableRuleEngine::new`
(`src/engine.rs`) and `RuleEngineBuilder::build` (`src/builder.rs`):
`rules.sort_by_key(|a| a.priority())` for `Asc`, and
`rules.sort_by_key(|a| std::cmp::Reverse(a.priority()))` for `Desc`.
`sort_by_key` is a stable sort; `List.mergeSort` is the stable sort used to
model it. -/
def sortByPriority {α : Type} (prio : α → Nat) : PriorityOrder → List α → List α
  | PriorityOrder.Asc, rs => rs.mergeSort (fun a b => decide (prio a ≤ prio b))
  | PriorityOrder.Desc, rs => rs.mergeSort (fun a b => decide (prio b ≤ prio a))

/-- The `RuleEngine<C, R>` struct of `src/engine.rs`. -/
structure RuleEngine (C O E : Type) where
  _rules : List (Rule C O E)
  _order : PriorityOrder

/-- The `MutableRuleEngine<C, R>` struct of `src/engine.rs`. -/
structure MutableRuleEngine (C E : Type) where
  _rules : List (MutableRule C E)
  _order : PriorityOrder

/-- `RuleEngine::new` (src/engine.rs, lines 40-55): unwrap the optional order
(defaulting to `Asc`), sort the rules by priority in that order, store both. -/
def RuleEngine.new {C O E : Type} (rules : List (Rule C O E))
    (order : Option PriorityOrder) : RuleEngine C O E :=
  let order := order.getD PriorityOrder.default
  { _rules := sortByPriority Rule.priority order rules, _order := order }

/-- `MutableRuleEngine::new` (src/engine.rs, lines 128-141): same construction
as `RuleEngine::new`. -/
def MutableRuleEngine.new {C E : Type} (rules : List (MutableRule C E))
    (order : Option PriorityOrder) : MutableRuleEngine C E :=
  let order := order.getD PriorityOrder.default
  { _rules := sortByPriority MutableRule.priority order rules, _order := order }

/-- Loop body of `RuleEngine::evaluate_all` (src/engine.rs, lines 69-80):
for each rule, `evaluate`; on error return `Evaluation`; if `true`, `apply`;
on error return `Application`; on success push the output. -/
def evalAllGo {C O E : Type} (ctx : C) :
    List (Rule C O E) → Except (RuleEngineError E) (List O)
  | [] => Except.ok []
  | r :: rs =>
    match r.evaluate ctx with
    | Except.error e => Except.error (RuleEngineError.Evaluation e)
    | Except.ok false => evalAllGo ctx rs
    | Except.ok true =>
      match r.apply ctx with
      | Except.error e => Except.error (RuleEngineError.Application e)
      | Except.ok o =>
        match evalAllGo ctx rs with
        | Except.error e => Except.error e
        | Except.ok os => Except.ok (o :: os)

/-- `RuleEngine::evaluate_all` (src/engine.rs, lines 69-80). -/
def RuleEngine.evaluate_all {C O E : Type} (eng : RuleEngine C O E) (ctx : C) :
    Except (RuleEngineError E) (List O) :=
  evalAllGo ctx eng._rules

/-- Loop body of `RuleEngine::evaluate_first` (src/engine.rs, lines 94-104):
return at the first rule whose `evaluate` is `Ok(true)` with its `apply`
result; `Ok(None)` when the loop exhausts the rules. -/
def evalFirstGo {C O E : Type} (ctx : C) :
    List (Rule C O E) → Except (RuleEngineError E) (Option O)
  | [] => Except.ok none
  | r :: rs =>
    match r.evaluate ctx with
    | Except.error e => Except.error (RuleEngineError.Evaluation e)
    | Except.ok false => evalFirstGo ctx rs
    | Except.ok true =>
      match r.apply ctx with
      | Except.error e => Except.error (RuleEngineError.Application e)
      | Except.ok o => Except.ok (some o)

/-- `RuleEngine::evaluate_first` (src/engine.rs, lines 94-104). -/
def RuleEngine.evaluate_first {C O E : Type} (eng : RuleEngine C O E) (ctx : C) :
    Except (RuleEngineError E) (Option O) :=
  evalFirstGo ctx eng._rules

/-- Loop body of `MutableRuleEngine::evaluate_all_mut` (src/engine.rs, lines
150-162): thread the mutable context through the successful applies; the
returned context is the caller's `&mut C` after the call, also on error.
The hooks return `()` and do not affect this result; their invocations are
captured by `evalAllMutGoT` below. -/
def evalAllMutGo {C E : Type} :
    List (MutableRule C E) → C → C × Except (RuleEngineError E) Unit
  | [], ctx => (ctx, Except.ok ())
  | r :: rs, ctx =>
    match r.evaluate ctx with
    | Except.error e => (ctx, Except.error (RuleEngineError.Evaluation e))
    | Except.ok false => evalAllMutGo rs ctx
    | Except.ok true =>
      match r.apply ctx with
      | Except.error e => (ctx, Except.error (RuleEngineError.Application e))
      | Except.ok ctx' => evalAllMutGo rs ctx'

/-- `MutableRuleEngine::evaluate_all_mut` (src/engine.rs, lines 150-162). -/
def MutableRuleEngine.evaluate_all_mut {C E : Type} (eng : MutableRuleEngine C E)
    (ctx : C) : C × Except (RuleEngineError E) Unit :=
  evalAllMutGo eng._rules ctx

/-- Loop body of `MutableRuleEngine::evaluate_first_mut` (src/engine.rs, lines
167-180): stop with `Ok(true)` after the first successful apply; `Ok(false)`
when no rule matched. -/
def evalFirstMutGo {C E : Type} :
    List (MutableRule C E) → C → C × Except (RuleEngineError E) Bool
  | [], ctx => (ctx, Except.ok false)
  | r :: rs, ctx =>
    match r.evaluate ctx with
    | Except.error e => (ctx, Except.error (RuleEngineError.Evaluation e))
    | Except.ok false => evalFirstMutGo rs ctx
    | Except.ok true =>
      match r.apply ctx with
      | Except.error e => (ctx, Except.error (RuleEngineError.Application e))
      | Except.ok ctx' => (ctx', Except.ok true)

/-- `MutableRuleEngine::evaluate_first_mut` (src/engine.rs, lines 167-180). -/
def MutableRuleEngine.evaluate_first_mut {C E : Type} (eng : MutableRuleEngine C E)
    (ctx : C) : C × Except (RuleEngineError E) Bool :=
  evalFirstMutGo eng._rules ctx

/-- The `RuleEngineBuilder<C, R>` struct of `src/builder.rs`. -/
structure RuleEngineBuilder (C O E : Type) where
  rules : List (Rule C O E)
  order : PriorityOrder

/-- `RuleEngineBuilder::new` (src/builder.rs, lines 81-87): no rules, default
(`Asc`) order. -/
def RuleEngineBuilder.new {C O E : Type} : RuleEngineBuilder C O E :=
  { rules := [], order := PriorityOrder.default }

/-- `RuleEngineBuilder::with_rules` (src/builder.rs, lines 98-101). -/
def RuleEngineBuilder.with_rules {C O E : Type} (b : RuleEngineBuilder C O E)
    (rules : List (Rule C O E)) : RuleEngineBuilder C O E :=
  { b with rules := rules }

/-- `RuleEngineBuilder::priority` (src/builder.rs, lines 112-115). -/
def RuleEngineBuilder.priority {C O E : Type} (b : RuleEngineBuilder C O E)
    (order : PriorityOrder) : RuleEngineBuilder C O E :=
  { b with order := order }

/-- `RuleEngineBuilder::priority_desc` (src/builder.rs, lines 120-122). -/
def RuleEngineBuilder.priority_desc {C O E : Type} (b : RuleEngineBuilder C O E) :
    RuleEngineBuilder C O E :=
  b.priority PriorityOrder.Desc

/-- `RuleEngineBuilder::priority_asc` (src/builder.rs, lines 127-129). -/
def RuleEngineBuilder.priority_asc {C O E : Type} (b : RuleEngineBuilder C O E) :
    RuleEngineBuilder C O E :=
  b.priority PriorityOrder.Asc

/-- `RuleEngineBuilder::build` (src/builder.rs, lines 138-153): sort the
accumulated rules by the selected order and construct the `RuleEngine`. -/
def RuleEngineBuilder.build {C O E : Type} (b : RuleEngineBuilder C O E) :
    RuleEngine C O E :=
  { _rules := sortByPriority Rule.priority b.order b.rules, _order := b.order }

/-!
Instrumented (traced) semantics.  To state temporal claims ("apply is never
invoked on a later rule", "before_apply runs immediately before apply") each
engine loop is replayed with an explicit log of the method invocations it
performs on its rules, identified by their position in the engine's sorted
sequence.  The traced functions perform exactly the calls of the Rust loops,
in order; lemmas below check that their results agree with the plain
definitions above.
-/

/-- One observable method invocation performed by an engine loop on the rule
at position `i` of its sorted sequence. -/
inductive REvent where
  | evalCall (i : Nat)
  | beforeApplyCall (i : Nat)
  | applyCall (i : Nat)
  | afterApplyCall (i : Nat)
deriving Repr, DecidableEq

/-- Position of the rule an event concerns. -/
def REvent.idx : REvent → Nat
  | REvent.evalCall i => i
  | REvent.beforeApplyCall i => i
  | REvent.applyCall i => i
  | REvent.afterApplyCall i => i

/-- Traced `RuleEngine::evaluate_all` loop, starting at position `i`. -/
def evalAllGoT {C O E : Type} (ctx : C) (i : Nat) :
    List (Rule C O E) → List REvent × Except (RuleEngineError E) (List O)
  | [] => ([], Except.ok [])
  | r :: rs =>
    match r.evaluate ctx with
    | Except.error e =>
      ([REvent.evalCall i], Except.error (RuleEngineError.Evaluation e))
    | Except.ok false =>
      (REvent.evalCall i :: (evalAllGoT ctx (i + 1) rs).1,
       (evalAllGoT ctx (i + 1) rs).2)
    | Except.ok true =>
      match r.apply ctx with
      | Except.error e =>
        ([REvent.evalCall i, REvent.applyCall i],
         Except.error (RuleEngineError.Application e))
      | Except.ok o =>
        (REvent.evalCall i :: REvent.applyCall i :: (evalAllGoT ctx (i + 1) rs).1,
         match (evalAllGoT ctx (i + 1) rs).2 with
         | Except.error e => Except.error e
         | Except.ok os => Except.ok (o :: os))

/-- Traced `RuleEngine::evaluate_first` loop, starting at position `i`. -/
def evalFirstGoT {C O E : Type} (ctx : C) (i : Nat) :
    List (Rule C O E) → List REvent × Except (RuleEngineError E) (Option O)
  | [] => ([], Except.ok none)
  | r :: rs =>
    match r.evaluate ctx with
    | Except.error e =>
      ([REvent.evalCall i], Except.error (RuleEngineError.Evaluation e))
    | Except.ok false =>
      (REvent.evalCall i :: (evalFirstGoT ctx (i + 1) rs).1,
       (evalFirstGoT ctx (i + 1) rs).2)
    | Except.ok true =>
      match r.apply ctx with
      | Except.error e =>
        ([REvent.evalCall i, REvent.applyCall i],
         Except.error (RuleEngineError.Application e))
      | Except.ok o => ([REvent.evalCall i, REvent.applyCall i], Except.ok (some o))

/-- Traced `MutableRuleEngine::evaluate_all_mut` loop, starting at position
`i`; records the hook invocations `before_apply` (always directly before
`apply`, per src/engine.rs line 156) and `after_apply` (directly after a
successful `apply`, line 158). -/
def evalAllMutGoT {C E : Type} (i : Nat) :
    List (MutableRule C E) → C → List REvent × C × Except (RuleEngineError E) Unit
  | [], ctx => ([], ctx, Except.ok ())
  | r :: rs, ctx =>
    match r.evaluate ctx with
    | Except.error e =>
      ([REvent.evalCall i], ctx, Except.error (RuleEngineError.Evaluation e))
    | Except.ok false =>
      (REvent.evalCall i :: (evalAllMutGoT (i + 1) rs ctx).1,
       (evalAllMutGoT (i + 1) rs ctx).2)
    | Except.ok true =>
      match r.apply ctx with
      | Except.error e =>
        ([REvent.evalCall i, REvent.beforeApplyCall i, REvent.applyCall i],
         ctx, Except.error (RuleEngineError.Application e))
      | Except.ok ctx' =>
        (REvent.evalCall i :: REvent.beforeApplyCall i :: REvent.applyCall i ::
           REvent.afterApplyCall i :: (evalAllMutGoT (i + 1) rs ctx').1,
         (evalAllMutGoT (i + 1) rs ctx').2)

/-- Traced `MutableRuleEngine::evaluate_first_mut` loop, starting at position
`i`. -/
def evalFirstMutGoT {C E : Type} (i : Nat) :
    List (MutableRule C E) → C → List REvent × C × Except (RuleEngineError E) Bool
  | [], ctx => ([], ctx, Except.ok false)
  | r :: rs, ctx =>
    match r.evaluate ctx with
    | Except.error e =>
      ([REvent.evalCall i], ctx, Except.error (RuleEngineError.Evaluation e))
    | Except.ok false =>
      (REvent.evalCall i :: (evalFirstMutGoT (i + 1) rs ctx).1,
       (evalFirstMutGoT (i + 1) rs ctx).2)
    | Except.ok true =>
      match r.apply ctx with
      | Except.error e =>
        ([REvent.evalCall i, REvent.beforeApplyCall i, REvent.applyCall i],
         ctx, Except.error (RuleEngineError.Application e))
      | Except.ok ctx' =>
        ([REvent.evalCall i, REvent.beforeApplyCall i, REvent.applyCall i,
          REvent.afterApplyCall i],
         ctx', Except.ok true)

/-- Decidable test used to state filtering claims: does `evaluate` return
`Ok(true)` on this context? -/
def evalTrue {C O E : Type} (r : Rule C O E) (ctx : C) : Bool :=
  match r.evaluate ctx with
  | Except.ok true => true
  | _ => false

/-- Decidable test used to state the error-taxonomy claim: is this result the
`Unknown` error variant? -/
def isUnknownRes {E A : Type} : Except (RuleEngineError E) A → Bool
  | Except.error RuleEngineError.Unknown => true
  | _ => false

/-- Sorting the empty rule list yields the empty list, in either order. -/
lemma sortByPriority_nil {α : Type} (prio : α → Nat) (o : PriorityOrder) :
    sortByPriority prio o [] = [] := by
  cases o <;> simp [sortByPriority]

/-- The instrumented `evaluate_all` loop computes the same result as the plain
one. -/
lemma evalAllGoT_snd {C O E : Type} (ctx : C) (i : Nat) :
    ∀ rs : List (Rule C O E), (evalAllGoT ctx i rs).2 = evalAllGo ctx rs := by
  intro rs
  induction rs generalizing i with
  | nil => rfl
  | cons r rs ih =>
    simp only [evalAllGoT, evalAllGo]
    cases h : r.evaluate ctx with
    | error e => rfl
    | ok b =>
      cases b with
      | false => exact ih (i + 1)
      | true =>
        cases ha : r.apply ctx with
        | error e => rfl
        | ok o => rw [ih (i + 1)]

/-- The instrumented `evaluate_first` loop computes the same result as the
plain one. -/
lemma evalFirstGoT_snd {C O E : Type} (ctx : C) (i : Nat) :
    ∀ rs : List (Rule C O E), (evalFirstGoT ctx i rs).2 = evalFirstGo ctx rs := by
  intro rs
  induction rs generalizing i with
  | nil => rfl
  | cons r rs ih =>
    simp only [evalFirstGoT, evalFirstGo]
    cases h : r.evaluate ctx with
    | error e => rfl
    | ok b =>
      cases b with
      | false => exact ih (i + 1)
      | true =>
        cases ha : r.apply ctx with
        | error e => rfl
        | ok o => rfl

/-- The instrumented `evaluate_all_mut` loop computes the same final context
and result as the plain one. -/
lemma evalAllMutGoT_snd {C E : Type} (i : Nat) :
    ∀ (rs : List (MutableRule C E)) (ctx : C),
      (evalAllMutGoT i rs ctx).2 = evalAllMutGo rs ctx := by
  intro rs
  induction rs generalizing i with
  | nil => intro ctx; rfl
  | cons r rs ih =>
    intro ctx
    simp only [evalAllMutGoT, evalAllMutGo]
    cases h : r.evaluate ctx with
    | error e => rfl
    | ok b =>
      cases b with
      | false => exact ih (i + 1) ctx
      | true =>
        cases ha : r.apply ctx with
        | error e => rfl
        | ok ctx' => exact ih (i + 1) ctx'

/-- The instrumented `evaluate_first_mut` loop computes the same final context
and result as the plain one. -/
lemma evalFirstMutGoT_snd {C E : Type} (i : Nat) :
    ∀ (rs : List (MutableRule C E)) (ctx : C),
      (evalFirstMutGoT i rs ctx).2 = evalFirstMutGo rs ctx := by
  intro rs
  induction rs generalizing i with
  | nil => intro ctx; rfl
  | cons r rs ih =>
    intro ctx
    simp only [evalFirstMutGoT, evalFirstMutGo]
    cases h : r.evaluate ctx with
    | error e => rfl
    | ok b =>
      cases b with
      | false => exact ih (i + 1) ctx
      | true =>
        cases ha : r.apply ctx with
        | error e => rfl
        | ok ctx' => rfl

/-- The `evaluate_all` loop never produces the `Unknown` variant. -/
lemma evalAllGo_not_unknown {C O E : Type} (ctx : C) :
    ∀ rs : List (Rule C O E), isUnknownRes (evalAllGo ctx rs) = false := by
  intro rs
  induction rs with
  | nil => rfl
  | cons r rs ih =>
    simp only [evalAllGo]
    cases h : r.evaluate ctx with
    | error e => rfl
    | ok b =>
      cases b with
      | false => exact ih
      | true =>
        cases ha : r.apply ctx with
        | error e => rfl
        | ok o =>
          cases hr : evalAllGo ctx rs with
          | error e => rw [hr] at ih; exact ih
          | ok os => rfl

/-- The `evaluate_first` loop never produces the `Unknown` variant. -/
lemma evalFirstGo_not_unknown {C O E : Type} (ctx : C) :
    ∀ rs : List (Rule C O E), isUnknownRes (evalFirstGo ctx rs) = false := by
  intro rs
  induction rs with
  | nil => rfl
  | cons r rs ih =>
    simp only [evalFirstGo]
    cases h : r.evaluate ctx with
    | error e => rfl
    | ok b =>
      cases b with
      | false => exact ih
      | true =>
        cases ha : r.apply ctx with
        | error e => rfl
        | ok o => rfl

/-- The `evaluate_all_mut` loop never produces the `Unknown` variant. -/
lemma evalAllMutGo_not_unknown {C E : Type} :
    ∀ (rs : List (MutableRule C E)) (ctx : C),
      isUnknownRes (evalAllMutGo rs ctx).2 = false := by
  intro rs
  induction rs with
  | nil => intro ctx; rfl
  | cons r rs ih =>
    intro ctx
    simp only [evalAllMutGo]
    cases h : r.evaluate ctx with
    | error e => rfl
    | ok b =>
      cases b with
      | false => exact ih ctx
      | true =>
        cases ha : r.apply ctx with
        | error e => rfl
        | ok ctx' => exact ih ctx'

/-- The `evaluate_first_mut` loop never produces the `Unknown` variant. -/
lemma evalFirstMutGo_not_unknown {C E : Type} :
    ∀ (rs : List (MutableRule C E)) (ctx : C),
      isUnknownRes (evalFirstMutGo rs ctx).2 = false := by
  intro rs
  induction rs with
  | nil => intro ctx; rfl
  | cons r rs ih =>
    intro ctx
    simp only [evalFirstMutGo]
    cases h : r.evaluate ctx with
    | error e => rfl
    | ok b =>
      cases b with
      | false => exact ih ctx
      | true =>
        cases ha : r.apply ctx with
        | error e => rfl
        | ok ctx' => rfl

end RuleKit

namespace RuleKit

/-- C7: For every engine and context, no evaluation entry point ever returns
the error taxonomy's `Unknown` variant; since `Evaluation` and `Application`
are the only other variants of `RuleEngineError`, every error returned is one
of those two, wrapping a rule-produced inner error. -/
theorem claim_c7_no_unknown_variant {C O E Cm Em : Type}
    (eng : RuleEngine C O E) (meng : MutableRuleEngine Cm Em) (ctx : C) (mctx : Cm) :
    isUnknownRes (eng.evaluate_all ctx) = false ∧
    isUnknownRes (eng.evaluate_first ctx) = false ∧
    isUnknownRes (meng.evaluate_all_mut mctx).2 = false ∧
    isUnknownRes (meng.evaluate_first_mut mctx).2 = false :=
  ⟨evalAllGo_not_unknown ctx eng._rules,
   evalFirstGo_not_unknown ctx eng._rules,
   evalAllMutGo_not_unknown meng._rules mctx,
   evalFirstMutGo_not_unknown meng._rules mctx⟩

/-- C8: An engine built from the empty rule list (either variant, any order,
any context) returns `Ok([])` from `evaluate_all`, `Ok(None)` from
`evaluate_first`, `Ok(())` from `evaluate_all_mut` leaving the context
unchanged, and `Ok(false)` from `evaluate_first_mut`. -/
theorem claim_c8_empty_rules {C O E Cm Em : Type} (o : Option PriorityOrder)
    (ctx : C) (mctx : Cm) :
    (RuleEngine.new ([] : List (Rule C O E)) o).evaluate_all ctx =
        Except.ok ([] : List O) ∧
    (RuleEngine.new ([] : List (Rule C O E)) o).evaluate_first ctx =
        Except.ok (none : Option O) ∧
    (MutableRuleEngine.new ([] : List (MutableRule Cm Em)) o).evaluate_all_mut mctx =
        (mctx, Except.ok ()) ∧
    (MutableRuleEngine.new ([] : List (MutableRule Cm Em)) o).evaluate_first_mut mctx =
        (mctx, Except.ok false) := by
  refine ⟨?_, ?_, ?_, ?_⟩ <;>
    simp [RuleEngine.new, MutableRuleEngine.new, RuleEngine.evaluate_all,
      RuleEngine.evaluate_first, MutableRuleEngine.evaluate_all_mut,
      MutableRuleEngine.evaluate_first_mut, sortByPriority_nil,
      evalAllGo, evalFirstGo, evalAllMutGo, evalFirstMutGo]

/-- Forget the error of a result, keeping a successful value (used only to
state the filtering claim). -/
def exceptToOption {E A : Type} : Except E A → Option A
  | Except.ok a => some a
  | Except.error _ => none

/-- A rule and context are error-free when `evaluate` returns `Ok` and, if it
returns `Ok(true)`, `apply` returns `Ok` as well. -/
def noErrStep {C O E : Type} (r : Rule C O E) (ctx : C) : Prop :=
  (∃ b, r.evaluate ctx = Except.ok b) ∧
    (r.evaluate ctx = Except.ok true → ∃ o, r.apply ctx = Except.ok o)

/-- On an error-free rule list, the `evaluate_all` loop returns exactly the
apply outputs of the rules whose `evaluate` returned `true`, in list order. -/
lemma evalAllGo_filter {C O E : Type} (ctx : C) :
    ∀ rs : List (Rule C O E), (∀ r ∈ rs, noErrStep r ctx) →
      evalAllGo ctx rs =
        Except.ok ((rs.filter (fun r => evalTrue r ctx)).filterMap
          (fun r => exceptToOption (r.apply ctx))) := by
  intro rs
  induction rs with
  | nil => intro _; rfl
  | cons r rs ih =>
    intro h
    obtain ⟨⟨b, hb⟩, happ⟩ := h r (List.mem_cons_self r rs)
    have hrest := fun r' hr' => h r' (List.mem_cons_of_mem r hr')
    cases b with
    | false =>
      have ht : evalTrue r ctx = false := by simp [evalTrue, hb]
      simp [evalAllGo, hb, ht, ih hrest]
    | true =>
      obtain ⟨o, ho⟩ := happ hb
      have ht : evalTrue r ctx = true := by simp [evalTrue, hb]
      simp [evalAllGo, hb, ho, ht, ih hrest, exceptToOption]

/-- C2: For every engine and context on which no rule's `evaluate` or `apply`
errors, `evaluate_all` returns `Ok` of exactly the sequence of `apply` outputs
of the rules whose `evaluate` returned `true`, in the engine's sorted sequence
order, and no output from any rule whose `evaluate` returned `false`. -/
theorem claim_c2_filtering_correctness {C O E : Type} (eng : RuleEngine C O E)
    (ctx : C) (h : ∀ r ∈ eng._rules, noErrStep r ctx) :
    eng.evaluate_all ctx =
      Except.ok ((eng._rules.filter (fun r => evalTrue r ctx)).filterMap
        (fun r => exceptToOption (r.apply ctx))) :=
  evalAllGo_filter ctx eng._rules h

/-- Constructing an engine from an already ascending-sorted rule list keeps
the list as given (used to evaluate witnesses on concrete inputs). -/
lemma new_rules_of_sorted {C O E : Type} (rs : List (Rule C O E))
    (h : List.Pairwise (fun a b => Rule.priority a ≤ Rule.priority b) rs) :
    (RuleEngine.new rs none)._rules = rs := by
  show List.mergeSort rs (fun a b => decide (Rule.priority a ≤ Rule.priority b)) = rs
  exact List.mergeSort_of_sorted (h.imp fun hab => decide_eq_true hab)

/-- Same as `new_rules_of_sorted` for the mutable engine. -/
lemma mut_new_rules_of_sorted {C E : Type} (rs : List (MutableRule C E))
    (h : List.Pairwise (fun a b => MutableRule.priority a ≤ MutableRule.priority b) rs) :
    (MutableRuleEngine.new rs none)._rules = rs := by
  show List.mergeSort rs
      (fun a b => decide (MutableRule.priority a ≤ MutableRule.priority b)) = rs
  exact List.mergeSort_of_sorted (h.imp fun hab => decide_eq_true hab)

/-- Pure example rule: fires when the context is positive, outputs `ctx + p`,
priority `p`. -/
def exRulePos (p : Nat) : Rule Nat Nat Nat :=
  { evaluate := fun c => Except.ok (decide (0 < c))
    apply := fun c => Except.ok (c + p)
    priority := p }

/-- Pure example rule that never fires. -/
def exRuleNever (p : Nat) : Rule Nat Nat Nat :=
  { evaluate := fun _ => Except.ok false
    apply := fun _ => Except.ok 99
    priority := p }

/-- Witness for C2: a concrete two-rule engine (one firing, one not) on
context `2`; the hypotheses hold and the conclusion evaluates. -/
theorem claim_c2_filtering_correctness_witness :
    (RuleEngine.new [exRuleNever 3, exRulePos 5] none).evaluate_all 2 =
      Except.ok
        (((RuleEngine.new [exRuleNever 3, exRulePos 5] none)._rules.filter
            (fun r => evalTrue r 2)).filterMap
          (fun r => exceptToOption (r.apply 2))) :=
  claim_c2_filtering_correctness (RuleEngine.new [exRuleNever 3, exRulePos 5] none) 2
    (by
      intro r hr
      have h2 : (RuleEngine.new [exRuleNever 3, exRulePos 5] none)._rules =
          [exRuleNever 3, exRulePos 5] :=
        new_rules_of_sorted _ (by simp [exRuleNever, exRulePos])
      rw [h2] at hr
      have : r = exRuleNever 3 ∨ r = exRulePos 5 := by simpa using hr
      rcases this with rfl | rfl
      · exact ⟨⟨false, rfl⟩, fun hcontra => by simp [exRuleNever] at hcontra⟩
      · exact ⟨⟨true, rfl⟩, fun _ => ⟨7, rfl⟩⟩)

/-- A mutable rule and context hit an error step when `evaluate` errors, or
`evaluate` returns `Ok(true)` and `apply` errors. -/
def mutErrStep {C E : Type} (r : MutableRule C E) (ctx : C) : Prop :=
  (∃ e, r.evaluate ctx = Except.error e) ∨
    (r.evaluate ctx = Except.ok true ∧ ∃ e, r.apply ctx = Except.error e)

/-- Running `evaluate_all_mut` over an appended rule list first runs the
prefix; if the prefix pass succeeds, the rest runs from the context the prefix
produced. -/
lemma evalAllMutGo_append_ok {C E : Type} :
    ∀ (rs₁ rs₂ : List (MutableRule C E)) (ctx ctx₁ : C),
      evalAllMutGo rs₁ ctx = (ctx₁, Except.ok ()) →
      evalAllMutGo (rs₁ ++ rs₂) ctx = evalAllMutGo rs₂ ctx₁ := by
  intro rs₁
  induction rs₁ with
  | nil =>
    intro rs₂ ctx ctx₁ h
    have : ctx = ctx₁ := congrArg Prod.fst h
    rw [List.nil_append, this]
  | cons r rs₁ ih =>
    intro rs₂ ctx ctx₁ h
    rw [evalAllMutGo] at h
    rw [List.cons_append, evalAllMutGo]
    cases he : r.evaluate ctx with
    | error e => rw [he] at h; exact absurd (congrArg Prod.snd h) (by simp)
    | ok b =>
      rw [he] at h
      cases b with
      | false => exact ih rs₂ ctx ctx₁ h
      | true =>
        cases ha : r.apply ctx with
        | error e => rw [ha] at h; exact absurd (congrArg Prod.snd h) (by simp)
        | ok ctx' => rw [ha] at h; exact ih rs₂ ctx' ctx₁ h

/-- C5: In `evaluate_all_mut`, later rules see the cumulative effect of
earlier successful applies: generally, after a rule fires successfully the
remaining rules run against the mutated context (last conjunct); concretely,
for an engine `[A, B]` where `A` mutates the context so that `B`'s `evaluate`
returns `true` on the mutated context although it returns `false` on the
original one, `B` still fires (its `apply` output is the final context, and
its `applyCall` appears in the trace). -/
theorem claim_c5_cumulative_visibility {C E : Type}
    (meng : MutableRuleEngine C E) (A B : MutableRule C E) (ctx ctx' ctx'' : C)
    (hrules : meng._rules = [A, B])
    (hAe : A.evaluate ctx = Except.ok true)
    (hAa : A.apply ctx = Except.ok ctx')
    (hBold : B.evaluate ctx = Except.ok false)
    (hBnew : B.evaluate ctx' = Except.ok true)
    (hBa : B.apply ctx' = Except.ok ctx'') :
    meng.evaluate_all_mut ctx = (ctx'', Except.ok ()) ∧
    REvent.applyCall 1 ∈ (evalAllMutGoT 0 meng._rules ctx).1 ∧
    (∀ (r : MutableRule C E) (rs : List (MutableRule C E)) (c c' : C),
      r.evaluate c = Except.ok true → r.apply c = Except.ok c' →
      evalAllMutGo (r :: rs) c = evalAllMutGo rs c') := by
  refine ⟨?_, ?_, ?_⟩
  · simp [MutableRuleEngine.evaluate_all_mut, hrules, evalAllMutGo,
      hAe, hAa, hBnew, hBa]
  · simp [hrules, evalAllMutGoT, hAe, hAa, hBnew, hBa]
  · intro r rs c c' he ha
    simp [evalAllMutGo, he, ha]

/-- Mutable example rule: always fires, adds 5 to the context. -/
def mAdd5 : MutableRule Nat Nat :=
  { name := "add5", priority := 0
    evaluate := fun _ => Except.ok true
    apply := fun c => Except.ok (c + 5) }

/-- Mutable example rule: fires when the context exceeds 4, multiplies it by
10. -/
def mThresh : MutableRule Nat Nat :=
  { name := "thresh", priority := 1
    evaluate := fun c => Except.ok (decide (4 < c))
    apply := fun c => Except.ok (c * 10) }

/-- Mutable example rule: always fires, increments the context. -/
def mInc : MutableRule Nat Nat :=
  { name := "inc", priority := 0
    evaluate := fun _ => Except.ok true
    apply := fun c => Except.ok (c + 1) }

/-- Mutable example rule whose `evaluate` always errors with code 7. -/
def mFailEval : MutableRule Nat Nat :=
  { name := "failEval", priority := 1
    evaluate := fun _ => Except.error 7
    apply := fun c => Except.ok c }

/-- Witness for C5: with `mAdd5` then `mThresh` on context `0`, the second
rule is false on `0` but true on the mutated `5`, and fires. -/
theorem claim_c5_cumulative_visibility_witness :
    (MutableRuleEngine.new [mAdd5, mThresh] none).evaluate_all_mut 0 =
        (50, Except.ok ()) ∧
    REvent.applyCall 1 ∈
        (evalAllMutGoT 0 (MutableRuleEngine.new [mAdd5, mThresh] none)._rules 0).1 ∧
    (∀ (r : MutableRule Nat Nat) (rs : List (MutableRule Nat Nat)) (c c' : Nat),
      r.evaluate c = Except.ok true → r.apply c = Except.ok c' →
      evalAllMutGo (r :: rs) c = evalAllMutGo rs c') :=
  claim_c5_cumulative_visibility (MutableRuleEngine.new [mAdd5, mThresh] none)
    mAdd5 mThresh 0 5 50
    (mut_new_rules_of_sorted _ (by simp [mAdd5, mThresh]))
    rfl rfl rfl rfl rfl

/-- C10: When `evaluate_all_mut` errors at a rule, the context returned to the
caller is the context produced by the successful applies of the earlier rules
in the same pass: the engine performs no rollback on error. -/
theorem claim_c10_no_rollback {C E : Type} (meng : MutableRuleEngine C E)
    (rs₁ rs₂ : List (MutableRule C E)) (r : MutableRule C E) (ctx ctx₁ : C)
    (hrules : meng._rules = rs₁ ++ r :: rs₂)
    (hpre : evalAllMutGo rs₁ ctx = (ctx₁, Except.ok ()))
    (herr : mutErrStep r ctx₁) :
    (meng.evaluate_all_mut ctx).1 = ctx₁ ∧
    ∃ e, (meng.evaluate_all_mut ctx).2 = Except.error e := by
  have hrun : meng.evaluate_all_mut ctx = evalAllMutGo (r :: rs₂) ctx₁ := by
    rw [MutableRuleEngine.evaluate_all_mut, hrules]
    exact evalAllMutGo_append_ok rs₁ _ ctx ctx₁ hpre
  rw [hrun]
  rcases herr with ⟨e, he⟩ | ⟨ht, e, ha⟩
  · exact ⟨by simp [evalAllMutGo, he],
      RuleEngineError.Evaluation e, by simp [evalAllMutGo, he]⟩
  · exact ⟨by simp [evalAllMutGo, ht, ha],
      RuleEngineError.Application e, by simp [evalAllMutGo, ht, ha]⟩

/-- Witness for C10: `mInc` increments the context to 1, then `mFailEval`
errors; the returned context is the mutated `1`, not the original `0`. -/
theorem claim_c10_no_rollback_witness :
    ((MutableRuleEngine.new [mInc, mFailEval] none).evaluate_all_mut 0).1 = 1 ∧
    ∃ e, ((MutableRuleEngine.new [mInc, mFailEval] none).evaluate_all_mut 0).2 =
      Except.error e :=
  claim_c10_no_rollback (MutableRuleEngine.new [mInc, mFailEval] none)
    [mInc] [] mFailEval 0 1
    (mut_new_rules_of_sorted _ (by simp [mInc, mFailEval]))
    rfl (Or.inl ⟨7, rfl⟩)

/-- The ascending comparison is transitive (in the `Bool` form `mergeSort`
expects). -/
lemma decide_le_trans {α : Type} (prio : α → Nat) (a b c : α)
    (hab : decide (prio a ≤ prio b) = true) (hbc : decide (prio b ≤ prio c) = true) :
    decide (prio a ≤ prio c) = true :=
  decide_eq_true (Nat.le_trans (of_decide_eq_true hab) (of_decide_eq_true hbc))

/-- The ascending comparison is total (in the `Bool` form `mergeSort`
expects). -/
lemma decide_le_total {α : Type} (prio : α → Nat) (a b : α) :
    (decide (prio a ≤ prio b) || decide (prio b ≤ prio a)) = true := by
  rcases Nat.le_total (prio a) (prio b) with h | h <;> simp [h]

/-- Stability of `mergeSort`: a filter whose members are pairwise related by
the comparison is unchanged by sorting. -/
lemma mergeSort_filter_stable {α : Type} (le : α → α → Bool)
    (trans : ∀ (a b c : α), le a b → le b c → le a c)
    (total : ∀ (a b : α), le a b || le b a)
    (p : α → Bool) (hp : ∀ a b, p a = true → p b = true → le a b = true)
    (l : List α) :
    (l.mergeSort le).filter p = l.filter p := by
  have hpw : (l.filter p).Pairwise (fun a b => le a b = true) :=
    List.pairwise_of_forall_mem_list fun a ha b hb =>
      hp a b (List.of_mem_filter ha) (List.of_mem_filter hb)
  have hsub : List.Sublist (l.filter p) (l.mergeSort le) :=
    List.sublist_mergeSort trans total hpw (List.filter_sublist l)
  have hself : (l.filter p).filter p = l.filter p :=
    List.filter_eq_self.mpr fun a ha => List.of_mem_filter ha
  have h1 : List.Sublist (l.filter p) ((l.mergeSort le).filter p) := by
    have := hsub.filter p
    rwa [hself] at this
  have h2 : ((l.mergeSort le).filter p).length = (l.filter p).length :=
    ((List.mergeSort_perm l le).filter p).length_eq
  exact (h1.eq_of_length h2.symm).symm

/-- Ascending sort produces non-decreasing priorities. -/
lemma sortByPriority_asc_pairwise {α : Type} (prio : α → Nat) (l : List α) :
    (sortByPriority prio PriorityOrder.Asc l).Pairwise
      (fun a b => prio a ≤ prio b) := by
  have h := List.sorted_mergeSort (decide_le_trans prio) (decide_le_total prio) l
  exact h.imp fun hab => of_decide_eq_true hab

/-- Descending sort produces non-increasing priorities. -/
lemma sortByPriority_desc_pairwise {α : Type} (prio : α → Nat) (l : List α) :
    (sortByPriority prio PriorityOrder.Desc l).Pairwise
      (fun a b => prio b ≤ prio a) := by
  have h := List.sorted_mergeSort
    (fun a b c hab hbc => decide_le_trans prio c b a hbc hab)
    (fun a b => decide_le_total prio b a) l
  exact h.imp fun hab => of_decide_eq_true hab

/-- Stability of the engine's sort: for every priority value, the rules
holding it appear in the sorted sequence exactly in their input order. -/
lemma sortByPriority_stable {α : Type} (prio : α → Nat) (o : PriorityOrder)
    (p : Nat) (l : List α) :
    (sortByPriority prio o l).filter (fun a => prio a == p) =
      l.filter (fun a => prio a == p) := by
  cases o with
  | Asc =>
    exact mergeSort_filter_stable _ (decide_le_trans prio) (decide_le_total prio) _
      (fun a b ha hb => by
        have ha' : prio a = p := by simpa using ha
        have hb' : prio b = p := by simpa using hb
        simp [ha', hb']) l
  | Desc =>
    exact mergeSort_filter_stable _
      (fun a b c hab hbc => decide_le_trans prio c b a hbc hab)
      (fun a b => decide_le_total prio b a) _
      (fun a b ha hb => by
        have ha' : prio a = p := by simpa using ha
        have hb' : prio b = p := by simpa using hb
        simp [ha', hb']) l

/-- C1: Every engine constructor (`RuleEngine::new`, `MutableRuleEngine::new`,
and the builder's `build`) stores a rule sequence whose priorities are
non-decreasing under `Asc` and non-increasing under `Desc`, and for every
priority value the rules holding it keep their relative input order (the sort
is stable). -/
theorem claim_c1_ordering_invariant {C O E Cm Em : Type}
    (rs : List (Rule C O E)) (ms : List (MutableRule Cm Em)) :
    ((RuleEngine.new rs (some PriorityOrder.Asc))._rules.Pairwise
        (fun a b => a.priority ≤ b.priority)) ∧
    ((RuleEngine.new rs (some PriorityOrder.Desc))._rules.Pairwise
        (fun a b => b.priority ≤ a.priority)) ∧
    (∀ (o : PriorityOrder) (p : Nat),
      (RuleEngine.new rs (some o))._rules.filter (fun r => r.priority == p) =
        rs.filter (fun r => r.priority == p)) ∧
    ((MutableRuleEngine.new ms (some PriorityOrder.Asc))._rules.Pairwise
        (fun a b => a.priority ≤ b.priority)) ∧
    ((MutableRuleEngine.new ms (some PriorityOrder.Desc))._rules.Pairwise
        (fun a b => b.priority ≤ a.priority)) ∧
    (∀ (o : PriorityOrder) (p : Nat),
      (MutableRuleEngine.new ms (some o))._rules.filter (fun r => r.priority == p) =
        ms.filter (fun r => r.priority == p)) ∧
    ((((RuleEngineBuilder.new.with_rules rs).priority PriorityOrder.Asc).build)._rules.Pairwise
        (fun a b => a.priority ≤ b.priority)) ∧
    ((((RuleEngineBuilder.new.with_rules rs).priority PriorityOrder.Desc).build)._rules.Pairwise
        (fun a b => b.priority ≤ a.priority)) ∧
    (∀ (o : PriorityOrder) (p : Nat),
      ((((RuleEngineBuilder.new.with_rules rs).priority o).build)._rules.filter
          (fun r => r.priority == p)) =
        rs.filter (fun r => r.priority == p)) :=
  ⟨sortByPriority_asc_pairwise Rule.priority rs,
   sortByPriority_desc_pairwise Rule.priority rs,
   fun o p => sortByPriority_stable Rule.priority o p rs,
   sortByPriority_asc_pairwise MutableRule.priority ms,
   sortByPriority_desc_pairwise MutableRule.priority ms,
   fun o p => sortByPriority_stable MutableRule.priority o p ms,
   sortByPriority_asc_pairwise Rule.priority rs,
   sortByPriority_desc_pairwise Rule.priority rs,
   fun o p => sortByPriority_stable Rule.priority o p rs⟩

/-- On a rule list whose first `Ok(true)` evaluation comes after only
`Ok(false)` ones, the traced `evaluate_first` loop returns that rule's apply
output and performs no call on any later rule. -/
lemma evalFirstGoT_match {C O E : Type} (ctx : C) :
    ∀ (rs₁ : List (Rule C O E)) (r : Rule C O E) (rs₂ : List (Rule C O E))
      (i : Nat) (o : O),
      (∀ r' ∈ rs₁, r'.evaluate ctx = Except.ok false) →
      r.evaluate ctx = Except.ok true → r.apply ctx = Except.ok o →
      (evalFirstGoT ctx i (rs₁ ++ r :: rs₂)).2 = Except.ok (some o) ∧
      ∀ ev ∈ (evalFirstGoT ctx i (rs₁ ++ r :: rs₂)).1, ev.idx ≤ i + rs₁.length := by
  intro rs₁
  induction rs₁ with
  | nil =>
    intro r rs₂ i o _ ht ha
    refine ⟨by simp [evalFirstGoT, ht, ha], ?_⟩
    intro ev hev
    simp [evalFirstGoT, ht, ha] at hev
    rcases hev with rfl | rfl <;> simp [REvent.idx]
  | cons r' rs₁ ih =>
    intro r rs₂ i o h₁ ht ha
    have hf : r'.evaluate ctx = Except.ok false := h₁ r' (List.mem_cons_self r' rs₁)
    have hrest := fun x hx => h₁ x (List.mem_cons_of_mem r' hx)
    obtain ⟨ihres, ihtr⟩ := ih r rs₂ (i + 1) o hrest ht ha
    constructor
    · simpa [evalFirstGoT, hf] using ihres
    · intro ev hev
      simp only [List.cons_append, evalFirstGoT, hf] at hev
      rcases List.mem_cons.mp hev with rfl | hev'
      · simp [REvent.idx]
      · have := ihtr ev hev'
        simp only [List.length_cons]
        omega

/-- On a rule list all of whose evaluations return `Ok(false)`, the
`evaluate_first` loop returns `Ok(None)`. -/
lemma evalFirstGo_none {C O E : Type} (ctx : C) :
    ∀ rs : List (Rule C O E), (∀ r ∈ rs, r.evaluate ctx = Except.ok false) →
      evalFirstGo ctx rs = Except.ok none := by
  intro rs
  induction rs with
  | nil => intro _; rfl
  | cons r rs ih =>
    intro h
    have hf := h r (List.mem_cons_self r rs)
    simp [evalFirstGo, hf, ih fun x hx => h x (List.mem_cons_of_mem r hx)]

/-- Mutable analogue of `evalFirstGoT_match`. -/
lemma evalFirstMutGoT_match {C E : Type} :
    ∀ (ms₁ : List (MutableRule C E)) (m : MutableRule C E)
      (ms₂ : List (MutableRule C E)) (i : Nat) (ctx ctx' : C),
      (∀ m' ∈ ms₁, m'.evaluate ctx = Except.ok false) →
      m.evaluate ctx = Except.ok true → m.apply ctx = Except.ok ctx' →
      (evalFirstMutGoT i (ms₁ ++ m :: ms₂) ctx).2 = (ctx', Except.ok true) ∧
      ∀ ev ∈ (evalFirstMutGoT i (ms₁ ++ m :: ms₂) ctx).1, ev.idx ≤ i + ms₁.length := by
  intro ms₁
  induction ms₁ with
  | nil =>
    intro m ms₂ i ctx ctx' _ ht ha
    refine ⟨by simp [evalFirstMutGoT, ht, ha], ?_⟩
    intro ev hev
    simp [evalFirstMutGoT, ht, ha] at hev
    rcases hev with rfl | rfl | rfl | rfl <;> simp [REvent.idx]
  | cons m' ms₁ ih =>
    intro m ms₂ i ctx ctx' h₁ ht ha
    have hf : m'.evaluate ctx = Except.ok false := h₁ m' (List.mem_cons_self m' ms₁)
    have hrest := fun x hx => h₁ x (List.mem_cons_of_mem m' hx)
    obtain ⟨ihres, ihtr⟩ := ih m ms₂ (i + 1) ctx ctx' hrest ht ha
    constructor
    · simpa [evalFirstMutGoT, hf] using ihres
    · intro ev hev
      simp only [List.cons_append, evalFirstMutGoT, hf] at hev
      rcases List.mem_cons.mp hev with rfl | hev'
      · simp [REvent.idx]
      · have := ihtr ev hev'
        simp only [List.length_cons]
        omega

/-- Mutable analogue of `evalFirstGo_none`: no match leaves the context
unchanged and returns `Ok(false)`. -/
lemma evalFirstMutGo_none {C E : Type} :
    ∀ (rs : List (MutableRule C E)) (ctx : C),
      (∀ r ∈ rs, r.evaluate ctx = Except.ok false) →
      evalFirstMutGo rs ctx = (ctx, Except.ok false) := by
  intro rs
  induction rs with
  | nil => intro ctx _; rfl
  | cons r rs ih =>
    intro ctx h
    have hf := h r (List.mem_cons_self r rs)
    simp [evalFirstMutGo, hf, ih ctx fun x hx => h x (List.mem_cons_of_mem r hx)]

/-- C4: `evaluate_first` returns `Ok(Some(output))` of the first rule in
sorted order whose `evaluate` returns `true` (its `apply` succeeding), apply
is never invoked on any rule after it (no call of any kind reaches a later
rule), and when every rule evaluates to `false` it returns `Ok(None)`;
`evaluate_first_mut` correspondingly returns `Ok(true)` or `Ok(false)`. -/
theorem claim_c4_short_circuit {C O E Cm Em : Type}
    (eng : RuleEngine C O E) (ctx : C)
    (meng : MutableRuleEngine Cm Em) (mctx mctx' : Cm)
    (rs₁ rs₂ : List (Rule C O E)) (r : Rule C O E) (o : O)
    (ms₁ ms₂ : List (MutableRule Cm Em)) (m : MutableRule Cm Em)
    (heng : eng._rules = rs₁ ++ r :: rs₂)
    (h₁ : ∀ r' ∈ rs₁, r'.evaluate ctx = Except.ok false)
    (ht : r.evaluate ctx = Except.ok true)
    (ha : r.apply ctx = Except.ok o)
    (hmeng : meng._rules = ms₁ ++ m :: ms₂)
    (hm₁ : ∀ m' ∈ ms₁, m'.evaluate mctx = Except.ok false)
    (hmt : m.evaluate mctx = Except.ok true)
    (hma : m.apply mctx = Except.ok mctx') :
    eng.evaluate_first ctx = Except.ok (some o) ∧
    (∀ j, REvent.applyCall j ∈ (evalFirstGoT ctx 0 eng._rules).1 → j ≤ rs₁.length) ∧
    meng.evaluate_first_mut mctx = (mctx', Except.ok true) ∧
    (∀ j, REvent.applyCall j ∈ (evalFirstMutGoT 0 meng._rules mctx).1 → j ≤ ms₁.length) ∧
    (∀ eng₂ : RuleEngine C O E,
      (∀ r' ∈ eng₂._rules, r'.evaluate ctx = Except.ok false) →
      eng₂.evaluate_first ctx = Except.ok none) ∧
    (∀ (meng₂ : MutableRuleEngine Cm Em) (c : Cm),
      (∀ m' ∈ meng₂._rules, m'.evaluate c = Except.ok false) →
      meng₂.evaluate_first_mut c = (c, Except.ok false)) := by
  obtain ⟨hres, htr⟩ := evalFirstGoT_match ctx rs₁ r rs₂ 0 o h₁ ht ha
  obtain ⟨hmres, hmtr⟩ := evalFirstMutGoT_match ms₁ m ms₂ 0 mctx mctx' hm₁ hmt hma
  refine ⟨?_, ?_, ?_, ?_, ?_, ?_⟩
  · rw [RuleEngine.evaluate_first, heng, ← evalFirstGoT_snd ctx 0, hres]
  · intro j hj
    rw [heng] at hj
    have := htr (REvent.applyCall j) hj
    simpa [REvent.idx] using this
  · rw [MutableRuleEngine.evaluate_first_mut, hmeng, ← evalFirstMutGoT_snd 0, hmres]
  · intro j hj
    rw [hmeng] at hj
    have := hmtr (REvent.applyCall j) hj
    simpa [REvent.idx] using this
  · intro eng₂ h₂
    exact evalFirstGo_none ctx eng₂._rules h₂
  · intro meng₂ c h₂
    exact evalFirstMutGo_none meng₂._rules c h₂

/-- Witness for C4: the immutable engine `[exRuleNever 3, exRulePos 5]` on
context `2` (first matching rule at position 1, output 7), and the mutable
engine `[mAdd5, mThresh]` on context `0` (first matching rule at position 0,
new context 5). -/
theorem claim_c4_short_circuit_witness :
    (RuleEngine.new [exRuleNever 3, exRulePos 5] none).evaluate_first 2 =
        Except.ok (some 7) ∧
    (∀ j, REvent.applyCall j ∈
        (evalFirstGoT 2 0 (RuleEngine.new [exRuleNever 3, exRulePos 5] none)._rules).1 →
        j ≤ [exRuleNever 3].length) ∧
    (MutableRuleEngine.new [mAdd5, mThresh] none).evaluate_first_mut 0 =
        (5, Except.ok true) ∧
    (∀ j, REvent.applyCall j ∈
        (evalFirstMutGoT 0 (MutableRuleEngine.new [mAdd5, mThresh] none)._rules 0).1 →
        j ≤ ([] : List (MutableRule Nat Nat)).length) ∧
    (∀ eng₂ : RuleEngine Nat Nat Nat,
      (∀ r' ∈ eng₂._rules, r'.evaluate 2 = Except.ok false) →
      eng₂.evaluate_first 2 = Except.ok none) ∧
    (∀ (meng₂ : MutableRuleEngine Nat Nat) (c : Nat),
      (∀ m' ∈ meng₂._rules, m'.evaluate c = Except.ok false) →
      meng₂.evaluate_first_mut c = (c, Except.ok false)) :=
  claim_c4_short_circuit (RuleEngine.new [exRuleNever 3, exRulePos 5] none) 2
    (MutableRuleEngine.new [mAdd5, mThresh] none) 0 5
    [exRuleNever 3] [] (exRulePos 5) 7 [] [mThresh] mAdd5
    (new_rules_of_sorted _ (by simp [exRuleNever, exRulePos]))
    (by intro r' hr'; simp at hr'; subst hr'; rfl)
    rfl rfl
    (mut_new_rules_of_sorted _ (by simp [mAdd5, mThresh]))
    (by intro m' hm'; simp at hm')
    rfl rfl

/-- An immutable rule and context hit an error step when `evaluate` errors, or
`evaluate` returns `Ok(true)` and `apply` errors. -/
def errStep {C O E : Type} (r : Rule C O E) (ctx : C) : Prop :=
  (∃ e, r.evaluate ctx = Except.error e) ∨
    (r.evaluate ctx = Except.ok true ∧ ∃ e, r.apply ctx = Except.error e)

/-- Fail-fast behaviour of the traced `evaluate_all` loop: with an error-free
prefix and an erroring rule after it, the loop returns the matching wrapped
error, no call reaches any rule past the erroring one, and an
evaluation-error rule never has `apply` invoked. -/
lemma evalAllGoT_fail {C O E : Type} (ctx : C) :
    ∀ (rs₁ : List (Rule C O E)) (r : Rule C O E) (rs₂ : List (Rule C O E))
      (i : Nat),
      (∀ r' ∈ rs₁, noErrStep r' ctx) → errStep r ctx →
      (∃ er, (evalAllGoT ctx i (rs₁ ++ r :: rs₂)).2 = Except.error er ∧
        ((∃ e, r.evaluate ctx = Except.error e ∧ er = RuleEngineError.Evaluation e) ∨
         (r.evaluate ctx = Except.ok true ∧
          ∃ e, r.apply ctx = Except.error e ∧ er = RuleEngineError.Application e))) ∧
      (∀ ev ∈ (evalAllGoT ctx i (rs₁ ++ r :: rs₂)).1, ev.idx ≤ i + rs₁.length) ∧
      ((∃ e, r.evaluate ctx = Except.error e) →
        REvent.applyCall (i + rs₁.length) ∉ (evalAllGoT ctx i (rs₁ ++ r :: rs₂)).1) := by
  intro rs₁
  induction rs₁ with
  | nil =>
    intro r rs₂ i _ herr
    rcases herr with ⟨e, he⟩ | ⟨ht, e, ha⟩
    · refine ⟨⟨RuleEngineError.Evaluation e, by simp [evalAllGoT, he],
        Or.inl ⟨e, he, rfl⟩⟩, ?_, ?_⟩
      · intro ev hev
        simp [evalAllGoT, he] at hev
        subst hev; simp [REvent.idx]
      · intro _
        simp [evalAllGoT, he]
    · refine ⟨⟨RuleEngineError.Application e, by simp [evalAllGoT, ht, ha],
        Or.inr ⟨ht, e, ha, rfl⟩⟩, ?_, ?_⟩
      · intro ev hev
        simp [evalAllGoT, ht, ha] at hev
        rcases hev with rfl | rfl <;> simp [REvent.idx]
      · rintro ⟨e', he'⟩
        rw [ht] at he'
        exact absurd he' (by simp)
  | cons r' rs₁ ih =>
    intro r rs₂ i h₁ herr
    obtain ⟨⟨b, hb⟩, happ⟩ := h₁ r' (List.mem_cons_self r' rs₁)
    have hrest := fun x hx => h₁ x (List.mem_cons_of_mem r' hx)
    obtain ⟨ihres, ihtr, ihnap⟩ := ih r rs₂ (i + 1) hrest herr
    have hidx : i + (r' :: rs₁).length = (i + 1) + rs₁.length := by
      simp only [List.length_cons]; omega
    cases b with
    | false =>
      refine ⟨?_, ?_, ?_⟩
      · obtain ⟨er, her, hmatch⟩ := ihres
        exact ⟨er, by simpa [evalAllGoT, hb] using her, hmatch⟩
      · intro ev hev
        simp only [List.cons_append, evalAllGoT, hb] at hev
        rcases List.mem_cons.mp hev with rfl | hev'
        · simp [REvent.idx]
        · have := ihtr ev hev'
          simp only [List.length_cons]; omega
      · intro hex
        have hne := ihnap hex
        rw [hidx]
        simp only [List.cons_append, evalAllGoT, hb]
        intro hmem
        rcases List.mem_cons.mp hmem with hcon | hmem'
        · simp at hcon
        · exact hne hmem'
    | true =>
      obtain ⟨o, ho⟩ := happ hb
      refine ⟨?_, ?_, ?_⟩
      · obtain ⟨er, her, hmatch⟩ := ihres
        refine ⟨er, ?_, hmatch⟩
        simp only [List.cons_append, evalAllGoT, hb, ho, List.append_eq]
        rw [her]
      · intro ev hev
        simp only [List.cons_append, evalAllGoT, hb, ho] at hev
        rcases List.mem_cons.mp hev with rfl | hev2
        · simp [REvent.idx]
        · rcases List.mem_cons.mp hev2 with rfl | hev3
          · simp [REvent.idx]
          · have := ihtr ev hev3
            simp only [List.length_cons]; omega
      · intro hex
        have hne := ihnap hex
        rw [hidx]
        simp only [List.cons_append, evalAllGoT, hb, ho]
        intro hmem
        rcases List.mem_cons.mp hmem with hcon | hmem2
        · simp at hcon
        · rcases List.mem_cons.mp hmem2 with hcon | hmem3
          · simp at hcon; omega
          · exact hne hmem3

/-- Fail-fast behaviour of the traced `evaluate_first` loop (prefix rules all
evaluate to `false`, so the erroring rule is the first one reached that ends
the pass). -/
lemma evalFirstGoT_fail {C O E : Type} (ctx : C) :
    ∀ (rs₁ : List (Rule C O E)) (r : Rule C O E) (rs₂ : List (Rule C O E))
      (i : Nat),
      (∀ r' ∈ rs₁, r'.evaluate ctx = Except.ok false) → errStep r ctx →
      (∃ er, (evalFirstGoT ctx i (rs₁ ++ r :: rs₂)).2 = Except.error er ∧
        ((∃ e, r.evaluate ctx = Except.error e ∧ er = RuleEngineError.Evaluation e) ∨
         (r.evaluate ctx = Except.ok true ∧
          ∃ e, r.apply ctx = Except.error e ∧ er = RuleEngineError.Application e))) ∧
      (∀ ev ∈ (evalFirstGoT ctx i (rs₁ ++ r :: rs₂)).1, ev.idx ≤ i + rs₁.length) ∧
      ((∃ e, r.evaluate ctx = Except.error e) →
        REvent.applyCall (i + rs₁.length) ∉ (evalFirstGoT ctx i (rs₁ ++ r :: rs₂)).1) := by
  intro rs₁
  induction rs₁ with
  | nil =>
    intro r rs₂ i _ herr
    rcases herr with ⟨e, he⟩ | ⟨ht, e, ha⟩
    · refine ⟨⟨RuleEngineError.Evaluation e, by simp [evalFirstGoT, he],
        Or.inl ⟨e, he, rfl⟩⟩, ?_, ?_⟩
      · intro ev hev
        simp [evalFirstGoT, he] at hev
        subst hev; simp [REvent.idx]
      · intro _
        simp [evalFirstGoT, he]
    · refine ⟨⟨RuleEngineError.Application e, by simp [evalFirstGoT, ht, ha],
        Or.inr ⟨ht, e, ha, rfl⟩⟩, ?_, ?_⟩
      · intro ev hev
        simp [evalFirstGoT, ht, ha] at hev
        rcases hev with rfl | rfl <;> simp [REvent.idx]
      · rintro ⟨e', he'⟩
        rw [ht] at he'
        exact absurd he' (by simp)
  | cons r' rs₁ ih =>
    intro r rs₂ i h₁ herr
    have hf : r'.evaluate ctx = Except.ok false := h₁ r' (List.mem_cons_self r' rs₁)
    have hrest := fun x hx => h₁ x (List.mem_cons_of_mem r' hx)
    obtain ⟨ihres, ihtr, ihnap⟩ := ih r rs₂ (i + 1) hrest herr
    have hidx : i + (r' :: rs₁).length = (i + 1) + rs₁.length := by
      simp only [List.length_cons]; omega
    refine ⟨?_, ?_, ?_⟩
    · obtain ⟨er, her, hmatch⟩ := ihres
      exact ⟨er, by simpa [evalFirstGoT, hf] using her, hmatch⟩
    · intro ev hev
      simp only [List.cons_append, evalFirstGoT, hf] at hev
      rcases List.mem_cons.mp hev with rfl | hev'
      · simp [REvent.idx]
      · have := ihtr ev hev'
        simp only [List.length_cons]; omega
    · intro hex
      have hne := ihnap hex
      rw [hidx]
      simp only [List.cons_append, evalFirstGoT, hf]
      intro hmem
      rcases List.mem_cons.mp hmem with hcon | hmem'
      · simp at hcon
      · exact hne hmem'

/-- Fail-fast behaviour of the traced `evaluate_all_mut` loop: if the pass
over the prefix succeeds producing `ctx₁` and the next rule errors on `ctx₁`,
the loop returns the matching wrapped error, no call reaches any rule past the
erroring one, and an evaluation-error rule never has `apply` invoked. -/
lemma evalAllMutGoT_fail {C E : Type} :
    ∀ (ms₁ : List (MutableRule C E)) (m : MutableRule C E)
      (ms₂ : List (MutableRule C E)) (i : Nat) (ctx ctx₁ : C),
      evalAllMutGo ms₁ ctx = (ctx₁, Except.ok ()) → mutErrStep m ctx₁ →
      (∃ er, (evalAllMutGoT i (ms₁ ++ m :: ms₂) ctx).2.2 = Except.error er ∧
        ((∃ e, m.evaluate ctx₁ = Except.error e ∧ er = RuleEngineError.Evaluation e) ∨
         (m.evaluate ctx₁ = Except.ok true ∧
          ∃ e, m.apply ctx₁ = Except.error e ∧ er = RuleEngineError.Application e))) ∧
      (∀ ev ∈ (evalAllMutGoT i (ms₁ ++ m :: ms₂) ctx).1, ev.idx ≤ i + ms₁.length) ∧
      ((∃ e, m.evaluate ctx₁ = Except.error e) →
        REvent.applyCall (i + ms₁.length) ∉ (evalAllMutGoT i (ms₁ ++ m :: ms₂) ctx).1) := by
  intro ms₁
  induction ms₁ with
  | nil =>
    intro m ms₂ i ctx ctx₁ hpre herr
    have hctx : ctx = ctx₁ := congrArg Prod.fst hpre
    subst hctx
    rcases herr with ⟨e, he⟩ | ⟨ht, e, ha⟩
    · refine ⟨⟨RuleEngineError.Evaluation e, by simp [evalAllMutGoT, he],
        Or.inl ⟨e, he, rfl⟩⟩, ?_, ?_⟩
      · intro ev hev
        simp [evalAllMutGoT, he] at hev
        subst hev; simp [REvent.idx]
      · intro _
        simp [evalAllMutGoT, he]
    · refine ⟨⟨RuleEngineError.Application e, by simp [evalAllMutGoT, ht, ha],
        Or.inr ⟨ht, e, ha, rfl⟩⟩, ?_, ?_⟩
      · intro ev hev
        simp [evalAllMutGoT, ht, ha] at hev
        rcases hev with rfl | rfl | rfl <;> simp [REvent.idx]
      · rintro ⟨e', he'⟩
        rw [ht] at he'
        exact absurd he' (by simp)
  | cons m' ms₁ ih =>
    intro m ms₂ i ctx ctx₁ hpre herr
    rw [evalAllMutGo] at hpre
    have hidx : i + (m' :: ms₁).length = (i + 1) + ms₁.length := by
      simp only [List.length_cons]; omega
    cases hb : m'.evaluate ctx with
    | error e =>
      rw [hb] at hpre
      exact absurd (congrArg Prod.snd hpre) (by simp)
    | ok b =>
      rw [hb] at hpre
      cases b with
      | false =>
        obtain ⟨ihres, ihtr, ihnap⟩ := ih m ms₂ (i + 1) ctx ctx₁ hpre herr
        refine ⟨?_, ?_, ?_⟩
        · obtain ⟨er, her, hmatch⟩ := ihres
          exact ⟨er, by simpa [evalAllMutGoT, hb] using her, hmatch⟩
        · intro ev hev
          simp only [List.cons_append, evalAllMutGoT, hb] at hev
          rcases List.mem_cons.mp hev with rfl | hev'
          · simp [REvent.idx]
          · have := ihtr ev hev'
            simp only [List.length_cons]; omega
        · intro hex
          have hne := ihnap hex
          rw [hidx]
          simp only [List.cons_append, evalAllMutGoT, hb]
          intro hmem
          rcases List.mem_cons.mp hmem with hcon | hmem'
          · simp at hcon
          · exact hne hmem'
      | true =>
        cases ha : m'.apply ctx with
        | error e =>
          rw [ha] at hpre
          exact absurd (congrArg Prod.snd hpre) (by simp)
        | ok ctx' =>
          rw [ha] at hpre
          obtain ⟨ihres, ihtr, ihnap⟩ := ih m ms₂ (i + 1) ctx' ctx₁ hpre herr
          refine ⟨?_, ?_, ?_⟩
          · obtain ⟨er, her, hmatch⟩ := ihres
            exact ⟨er, by simpa [evalAllMutGoT, hb, ha] using her, hmatch⟩
          · intro ev hev
            simp only [List.cons_append, evalAllMutGoT, hb, ha,
              List.mem_cons] at hev
            rcases hev with rfl | rfl | rfl | rfl | hev'
            · simp [REvent.idx]
            · simp [REvent.idx]
            · simp [REvent.idx]
            · simp [REvent.idx]
            · have := ihtr ev hev'
              simp only [List.length_cons]; omega
          · intro hex
            have hne := ihnap hex
            rw [hidx]
            simp only [List.cons_append, evalAllMutGoT, hb, ha]
            intro hmem
            simp only [List.mem_cons] at hmem
            rcases hmem with hcon | hcon | hcon | hcon | hmem'
            · simp at hcon
            · simp at hcon
            · simp at hcon; omega
            · simp at hcon
            · exact hne hmem'

/-- Fail-fast behaviour of the traced `evaluate_first_mut` loop (prefix rules
all evaluate to `false`, leaving the context untouched, so the erroring rule
is the first one reached that ends the pass). -/
lemma evalFirstMutGoT_fail {C E : Type} :
    ∀ (ms₁ : List (MutableRule C E)) (m : MutableRule C E)
      (ms₂ : List (MutableRule C E)) (i : Nat) (ctx : C),
      (∀ m' ∈ ms₁, m'.evaluate ctx = Except.ok false) → mutErrStep m ctx →
      (∃ er, (evalFirstMutGoT i (ms₁ ++ m :: ms₂) ctx).2.2 = Except.error er ∧
        ((∃ e, m.evaluate ctx = Except.error e ∧ er = RuleEngineError.Evaluation e) ∨
         (m.evaluate ctx = Except.ok true ∧
          ∃ e, m.apply ctx = Except.error e ∧ er = RuleEngineError.Application e))) ∧
      (∀ ev ∈ (evalFirstMutGoT i (ms₁ ++ m :: ms₂) ctx).1, ev.idx ≤ i + ms₁.length) ∧
      ((∃ e, m.evaluate ctx = Except.error e) →
        REvent.applyCall (i + ms₁.length) ∉ (evalFirstMutGoT i (ms₁ ++ m :: ms₂) ctx).1) := by
  intro ms₁
  induction ms₁ with
  | nil =>
    intro m ms₂ i ctx _ herr
    rcases herr with ⟨e, he⟩ | ⟨ht, e, ha⟩
    · refine ⟨⟨RuleEngineError.Evaluation e, by simp [evalFirstMutGoT, he],
        Or.inl ⟨e, he, rfl⟩⟩, ?_, ?_⟩
      · intro ev hev
        simp [evalFirstMutGoT, he] at hev
        subst hev; simp [REvent.idx]
      · intro _
        simp [evalFirstMutGoT, he]
    · refine ⟨⟨RuleEngineError.Application e, by simp [evalFirstMutGoT, ht, ha],
        Or.inr ⟨ht, e, ha, rfl⟩⟩, ?_, ?_⟩
      · intro ev hev
        simp [evalFirstMutGoT, ht, ha] at hev
        rcases hev with rfl | rfl | rfl <;> simp [REvent.idx]
      · rintro ⟨e', he'⟩
        rw [ht] at he'
        exact absurd he' (by simp)
  | cons m' ms₁ ih =>
    intro m ms₂ i ctx h₁ herr
    have hf : m'.evaluate ctx = Except.ok false := h₁ m' (List.mem_cons_self m' ms₁)
    have hrest := fun x hx => h₁ x (List.mem_cons_of_mem m' hx)
    obtain ⟨ihres, ihtr, ihnap⟩ := ih m ms₂ (i + 1) ctx hrest herr
    have hidx : i + (m' :: ms₁).length = (i + 1) + ms₁.length := by
      simp only [List.length_cons]; omega
    refine ⟨?_, ?_, ?_⟩
    · obtain ⟨er, her, hmatch⟩ := ihres
      exact ⟨er, by simpa [evalFirstMutGoT, hf] using her, hmatch⟩
    · intro ev hev
      simp only [List.cons_append, evalFirstMutGoT, hf] at hev
      rcases List.mem_cons.mp hev with rfl | hev'
      · simp [REvent.idx]
      · have := ihtr ev hev'
        simp only [List.length_cons]; omega
    · intro hex
      have hne := ihnap hex
      rw [hidx]
      simp only [List.cons_append, evalFirstMutGoT, hf]
      intro hmem
      rcases List.mem_cons.mp hmem with hcon | hmem'
      · simp at hcon
      · exact hne hmem'

/-- C3: If the `k`-th rule in sorted order is the first whose `evaluate` or
`apply` errors during the pass, then each entry point (`evaluate_all`,
`evaluate_first`, `evaluate_all_mut`, `evaluate_first_mut`) returns
`Err(Evaluation(e))` for an evaluate error or `Err(Application(e))` for an
apply error, wrapping that rule's inner error; no call of any kind reaches a
rule after the failing one, a rule whose `evaluate` errored never has `apply`
invoked, and the result is the error alone (no partial output list).  For the
`all` variants the earlier rules complete without error; for the `first`
variants the earlier rules evaluate to `false` (otherwise the pass would have
ended before rule `k`). -/
theorem claim_c3_fail_fast {C O E Cm Em : Type}
    (engA : RuleEngine C O E) (ctxA : C)
    (as₁ as₂ : List (Rule C O E)) (ar : Rule C O E)
    (engF : RuleEngine C O E) (ctxF : C)
    (fs₁ fs₂ : List (Rule C O E)) (fr : Rule C O E)
    (mengA : MutableRuleEngine Cm Em) (mctxA mctx₁ : Cm)
    (bs₁ bs₂ : List (MutableRule Cm Em)) (br : MutableRule Cm Em)
    (mengF : MutableRuleEngine Cm Em) (mctxF : Cm)
    (gs₁ gs₂ : List (MutableRule Cm Em)) (gr : MutableRule Cm Em)
    (hengA : engA._rules = as₁ ++ ar :: as₂)
    (hA1 : ∀ r' ∈ as₁, noErrStep r' ctxA)
    (hAerr : errStep ar ctxA)
    (hengF : engF._rules = fs₁ ++ fr :: fs₂)
    (hF1 : ∀ r' ∈ fs₁, r'.evaluate ctxF = Except.ok false)
    (hFerr : errStep fr ctxF)
    (hmengA : mengA._rules = bs₁ ++ br :: bs₂)
    (hB1 : evalAllMutGo bs₁ mctxA = (mctx₁, Except.ok ()))
    (hBerr : mutErrStep br mctx₁)
    (hmengF : mengF._rules = gs₁ ++ gr :: gs₂)
    (hG1 : ∀ m' ∈ gs₁, m'.evaluate mctxF = Except.ok false)
    (hGerr : mutErrStep gr mctxF) :
    (∃ er, engA.evaluate_all ctxA = Except.error er ∧
      ((∃ e, ar.evaluate ctxA = Except.error e ∧ er = RuleEngineError.Evaluation e) ∨
       (ar.evaluate ctxA = Except.ok true ∧
        ∃ e, ar.apply ctxA = Except.error e ∧ er = RuleEngineError.Application e))) ∧
    (∀ ev ∈ (evalAllGoT ctxA 0 engA._rules).1, ev.idx ≤ as₁.length) ∧
    ((∃ e, ar.evaluate ctxA = Except.error e) →
      REvent.applyCall as₁.length ∉ (evalAllGoT ctxA 0 engA._rules).1) ∧
    (∃ er, engF.evaluate_first ctxF = Except.error er ∧
      ((∃ e, fr.evaluate ctxF = Except.error e ∧ er = RuleEngineError.Evaluation e) ∨
       (fr.evaluate ctxF = Except.ok true ∧
        ∃ e, fr.apply ctxF = Except.error e ∧ er = RuleEngineError.Application e))) ∧
    (∀ ev ∈ (evalFirstGoT ctxF 0 engF._rules).1, ev.idx ≤ fs₁.length) ∧
    ((∃ e, fr.evaluate ctxF = Except.error e) →
      REvent.applyCall fs₁.length ∉ (evalFirstGoT ctxF 0 engF._rules).1) ∧
    (∃ er, (mengA.evaluate_all_mut mctxA).2 = Except.error er ∧
      ((∃ e, br.evaluate mctx₁ = Except.error e ∧ er = RuleEngineError.Evaluation e) ∨
       (br.evaluate mctx₁ = Except.ok true ∧
        ∃ e, br.apply mctx₁ = Except.error e ∧ er = RuleEngineError.Application e))) ∧
    (∀ ev ∈ (evalAllMutGoT 0 mengA._rules mctxA).1, ev.idx ≤ bs₁.length) ∧
    ((∃ e, br.evaluate mctx₁ = Except.error e) →
      REvent.applyCall bs₁.length ∉ (evalAllMutGoT 0 mengA._rules mctxA).1) ∧
    (∃ er, (mengF.evaluate_first_mut mctxF).2 = Except.error er ∧
      ((∃ e, gr.evaluate mctxF = Except.error e ∧ er = RuleEngineError.Evaluation e) ∨
       (gr.evaluate mctxF = Except.ok true ∧
        ∃ e, gr.apply mctxF = Except.error e ∧ er = RuleEngineError.Application e))) ∧
    (∀ ev ∈ (evalFirstMutGoT 0 mengF._rules mctxF).1, ev.idx ≤ gs₁.length) ∧
    ((∃ e, gr.evaluate mctxF = Except.error e) →
      REvent.applyCall gs₁.length ∉ (evalFirstMutGoT 0 mengF._rules mctxF).1) := by
  obtain ⟨hAres, hAtr, hAnap⟩ := evalAllGoT_fail ctxA as₁ ar as₂ 0 hA1 hAerr
  obtain ⟨hFres, hFtr, hFnap⟩ := evalFirstGoT_fail ctxF fs₁ fr fs₂ 0 hF1 hFerr
  obtain ⟨hBres, hBtr, hBnap⟩ := evalAllMutGoT_fail bs₁ br bs₂ 0 mctxA mctx₁ hB1 hBerr
  obtain ⟨hGres, hGtr, hGnap⟩ := evalFirstMutGoT_fail gs₁ gr gs₂ 0 mctxF hG1 hGerr
  refine ⟨?_, ?_, ?_, ?_, ?_, ?_, ?_, ?_, ?_, ?_, ?_, ?_⟩
  · obtain ⟨er, her, hsh⟩ := hAres
    exact ⟨er, by rw [RuleEngine.evaluate_all, hengA, ← evalAllGoT_snd ctxA 0]
                  exact her, hsh⟩
  · intro ev hev
    rw [hengA] at hev
    have := hAtr ev hev
    omega
  · intro hex
    rw [hengA]
    have := hAnap hex
    simpa using this
  · obtain ⟨er, her, hsh⟩ := hFres
    exact ⟨er, by rw [RuleEngine.evaluate_first, hengF, ← evalFirstGoT_snd ctxF 0]
                  exact her, hsh⟩
  · intro ev hev
    rw [hengF] at hev
    have := hFtr ev hev
    omega
  · intro hex
    rw [hengF]
    have := hFnap hex
    simpa using this
  · obtain ⟨er, her, hsh⟩ := hBres
    exact ⟨er, by rw [MutableRuleEngine.evaluate_all_mut, hmengA,
                    ← evalAllMutGoT_snd 0]
                  exact her, hsh⟩
  · intro ev hev
    rw [hmengA] at hev
    have := hBtr ev hev
    omega
  · intro hex
    rw [hmengA]
    have := hBnap hex
    simpa using this
  · obtain ⟨er, her, hsh⟩ := hGres
    exact ⟨er, by rw [MutableRuleEngine.evaluate_first_mut, hmengF,
                    ← evalFirstMutGoT_snd 0]
                  exact her, hsh⟩
  · intro ev hev
    rw [hmengF] at hev
    have := hGtr ev hev
    omega
  · intro hex
    rw [hmengF]
    have := hGnap hex
    simpa using this

/-- Pure example rule whose `evaluate` always errors with code 42. -/
def exRuleEvalErr : Rule Nat Nat Nat :=
  { evaluate := fun _ => Except.error 42
    apply := fun c => Except.ok c
    priority := 9 }

/-- Mutable example rule that never fires. -/
def mNever : MutableRule Nat Nat :=
  { name := "never", priority := 0
    evaluate := fun _ => Except.ok false
    apply := fun c => Except.ok c }

/-- Witness for C3: concrete engines whose second rule errors — immutable
`[exRuleNever 3, exRuleEvalErr]` on context 2, mutable `[mInc, mFailEval]` on
context 0 (prefix apply mutates 0 to 1) and `[mNever, mFailEval]` on
context 0. -/
theorem claim_c3_fail_fast_witness :
    (∃ er, (RuleEngine.new [exRuleNever 3, exRuleEvalErr] none).evaluate_all 2 =
        Except.error er ∧
      ((∃ e, exRuleEvalErr.evaluate 2 = Except.error e ∧
          er = RuleEngineError.Evaluation e) ∨
       (exRuleEvalErr.evaluate 2 = Except.ok true ∧
        ∃ e, exRuleEvalErr.apply 2 = Except.error e ∧
          er = RuleEngineError.Application e))) ∧
    (∀ ev ∈ (evalAllGoT 2 0
        (RuleEngine.new [exRuleNever 3, exRuleEvalErr] none)._rules).1,
      ev.idx ≤ 1) ∧
    ((∃ e, exRuleEvalErr.evaluate 2 = Except.error e) →
      REvent.applyCall 1 ∉ (evalAllGoT 2 0
        (RuleEngine.new [exRuleNever 3, exRuleEvalErr] none)._rules).1) ∧
    (∃ er, (RuleEngine.new [exRuleNever 3, exRuleEvalErr] none).evaluate_first 2 =
        Except.error er ∧
      ((∃ e, exRuleEvalErr.evaluate 2 = Except.error e ∧
          er = RuleEngineError.Evaluation e) ∨
       (exRuleEvalErr.evaluate 2 = Except.ok true ∧
        ∃ e, exRuleEvalErr.apply 2 = Except.error e ∧
          er = RuleEngineError.Application e))) ∧
    (∀ ev ∈ (evalFirstGoT 2 0
        (RuleEngine.new [exRuleNever 3, exRuleEvalErr] none)._rules).1,
      ev.idx ≤ 1) ∧
    ((∃ e, exRuleEvalErr.evaluate 2 = Except.error e) →
      REvent.applyCall 1 ∉ (evalFirstGoT 2 0
        (RuleEngine.new [exRuleNever 3, exRuleEvalErr] none)._rules).1) ∧
    (∃ er, ((MutableRuleEngine.new [mInc, mFailEval] none).evaluate_all_mut 0).2 =
        Except.error er ∧
      ((∃ e, mFailEval.evaluate 1 = Except.error e ∧
          er = RuleEngineError.Evaluation e) ∨
       (mFailEval.evaluate 1 = Except.ok true ∧
        ∃ e, mFailEval.apply 1 = Except.error e ∧
          er = RuleEngineError.Application e))) ∧
    (∀ ev ∈ (evalAllMutGoT 0
        (MutableRuleEngine.new [mInc, mFailEval] none)._rules 0).1,
      ev.idx ≤ 1) ∧
    ((∃ e, mFailEval.evaluate 1 = Except.error e) →
      REvent.applyCall 1 ∉ (evalAllMutGoT 0
        (MutableRuleEngine.new [mInc, mFailEval] none)._rules 0).1) ∧
    (∃ er, ((MutableRuleEngine.new [mNever, mFailEval] none).evaluate_first_mut 0).2 =
        Except.error er ∧
      ((∃ e, mFailEval.evaluate 0 = Except.error e ∧
          er = RuleEngineError.Evaluation e) ∨
       (mFailEval.evaluate 0 = Except.ok true ∧
        ∃ e, mFailEval.apply 0 = Except.error e ∧
          er = RuleEngineError.Application e))) ∧
    (∀ ev ∈ (evalFirstMutGoT 0
        (MutableRuleEngine.new [mNever, mFailEval] none)._rules 0).1,
      ev.idx ≤ 1) ∧
    ((∃ e, mFailEval.evaluate 0 = Except.error e) →
      REvent.applyCall 1 ∉ (evalFirstMutGoT 0
        (MutableRuleEngine.new [mNever, mFailEval] none)._rules 0).1) :=
  claim_c3_fail_fast
    (RuleEngine.new [exRuleNever 3, exRuleEvalErr] none) 2
    [exRuleNever 3] [] exRuleEvalErr
    (RuleEngine.new [exRuleNever 3, exRuleEvalErr] none) 2
    [exRuleNever 3] [] exRuleEvalErr
    (MutableRuleEngine.new [mInc, mFailEval] none) 0 1
    [mInc] [] mFailEval
    (MutableRuleEngine.new [mNever, mFailEval] none) 0
    [mNever] [] mFailEval
    (new_rules_of_sorted _ (by simp [exRuleNever, exRuleEvalErr]))
    (by
      intro r' hr'
      simp at hr'
      subst hr'
      exact ⟨⟨false, rfl⟩, fun h => by simp [exRuleNever] at h⟩)
    (Or.inl ⟨42, rfl⟩)
    (new_rules_of_sorted _ (by simp [exRuleNever, exRuleEvalErr]))
    (by intro r' hr'; simp at hr'; subst hr'; rfl)
    (Or.inl ⟨42, rfl⟩)
    (mut_new_rules_of_sorted _ (by simp [mInc, mFailEval]))
    rfl
    (Or.inl ⟨7, rfl⟩)
    (mut_new_rules_of_sorted _ (by simp [mNever, mFailEval]))
    (by intro m' hm'; simp at hm'; subst hm'; rfl)
    (Or.inl ⟨7, rfl⟩)

/-- Shape grammar of the traces of the mutable engine loops (src/engine.rs,
lines 154-160 and 171-178).  Per visited rule, either only `evaluate` ran
(returned `false` or errored — no hooks, no apply), or the rule was applied
with `before_apply` directly before `apply`; `after_apply` follows directly
when `apply` succeeded, while on apply failure the pass ends right after the
`apply` event, `before_apply` having already run. -/
inductive HookShape : List REvent → Prop where
  | nil : HookShape []
  | evalOnly (i : Nat) (t : List REvent) : HookShape t →
      HookShape (REvent.evalCall i :: t)
  | applyFailed (i : Nat) :
      HookShape [REvent.evalCall i, REvent.beforeApplyCall i, REvent.applyCall i]
  | applied (i : Nat) (t : List REvent) : HookShape t →
      HookShape (REvent.evalCall i :: REvent.beforeApplyCall i ::
        REvent.applyCall i :: REvent.afterApplyCall i :: t)

/-- The trace of the `evaluate_all_mut` loop fits the hook shape grammar. -/
lemma evalAllMutGoT_hookShape {C E : Type} :
    ∀ (i : Nat) (rs : List (MutableRule C E)) (ctx : C),
      HookShape (evalAllMutGoT i rs ctx).1 := by
  intro i rs
  induction rs generalizing i with
  | nil => intro ctx; exact HookShape.nil
  | cons r rs ih =>
    intro ctx
    cases h : r.evaluate ctx with
    | error e =>
      simp only [evalAllMutGoT, h]
      exact HookShape.evalOnly i [] HookShape.nil
    | ok b =>
      cases b with
      | false =>
        simp only [evalAllMutGoT, h]
        exact HookShape.evalOnly i _ (ih (i + 1) ctx)
      | true =>
        cases ha : r.apply ctx with
        | error e =>
          simp only [evalAllMutGoT, h, ha]
          exact HookShape.applyFailed i
        | ok ctx' =>
          simp only [evalAllMutGoT, h, ha]
          exact HookShape.applied i _ (ih (i + 1) ctx')

/-- The trace of the `evaluate_first_mut` loop fits the hook shape grammar. -/
lemma evalFirstMutGoT_hookShape {C E : Type} :
    ∀ (i : Nat) (rs : List (MutableRule C E)) (ctx : C),
      HookShape (evalFirstMutGoT i rs ctx).1 := by
  intro i rs
  induction rs generalizing i with
  | nil => intro ctx; exact HookShape.nil
  | cons r rs ih =>
    intro ctx
    cases h : r.evaluate ctx with
    | error e =>
      simp only [evalFirstMutGoT, h]
      exact HookShape.evalOnly i [] HookShape.nil
    | ok b =>
      cases b with
      | false =>
        simp only [evalFirstMutGoT, h]
        exact HookShape.evalOnly i _ (ih (i + 1) ctx)
      | true =>
        cases ha : r.apply ctx with
        | error e =>
          simp only [evalFirstMutGoT, h, ha]
          exact HookShape.applyFailed i
        | ok ctx' =>
          simp only [evalFirstMutGoT, h, ha]
          exact HookShape.applied i [] HookShape.nil

/-- In a hook-shaped trace, every `before_apply` event is immediately followed
by the same rule's `apply` event. -/
lemma HookShape.before_imm_apply {t : List REvent} (hs : HookShape t) :
    ∀ n i, t[n]? = some (REvent.beforeApplyCall i) →
      t[n + 1]? = some (REvent.applyCall i) := by
  induction hs with
  | nil => intro n i h; simp at h
  | evalOnly j t ht ih =>
    intro n i h
    cases n with
    | zero => simp at h
    | succ n =>
      simp only [List.getElem?_cons_succ] at h ⊢
      exact ih n i h
  | applyFailed j =>
    intro n i h
    rcases n with _ | _ | _ | n
    · simp at h
    · simp at h
      subst h
      simp
    · simp at h
    · simp at h
  | applied j t ht ih =>
    intro n i h
    rcases n with _ | _ | _ | _ | n
    · simp at h
    · simp at h
      subst h
      simp
    · simp at h
    · simp at h
    · simp only [List.getElem?_cons_succ] at h ⊢
      exact ih n i h

/-- In a hook-shaped trace, every `after_apply` event immediately follows the
same rule's `apply` event. -/
lemma HookShape.after_follows_apply {t : List REvent} (hs : HookShape t) :
    ∀ n i, t[n]? = some (REvent.afterApplyCall i) →
      ∃ m, n = m + 1 ∧ t[m]? = some (REvent.applyCall i) := by
  induction hs with
  | nil => intro n i h; simp at h
  | evalOnly j t ht ih =>
    intro n i h
    cases n with
    | zero => simp at h
    | succ n =>
      simp only [List.getElem?_cons_succ] at h
      obtain ⟨m, rfl, hm⟩ := ih n i h
      exact ⟨m + 1, rfl, by simpa using hm⟩
  | applyFailed j =>
    intro n i h
    rcases n with _ | _ | _ | n <;> simp at h
  | applied j t ht ih =>
    intro n i h
    rcases n with _ | _ | _ | _ | n
    · simp at h
    · simp at h
    · simp at h
    · simp at h
      subst h
      exact ⟨2, rfl, by simp⟩
    · simp only [List.getElem?_cons_succ] at h
      obtain ⟨m, rfl, hm⟩ := ih n i h
      exact ⟨m + 4, rfl, by simpa using hm⟩

/-- In a hook-shaped trace, a rule has its `apply` invoked exactly when its
`before_apply` hook is invoked. -/
lemma HookShape.apply_iff_before {t : List REvent} (hs : HookShape t) :
    ∀ i, REvent.applyCall i ∈ t ↔ REvent.beforeApplyCall i ∈ t := by
  induction hs with
  | nil => intro i; simp
  | evalOnly j t ht ih =>
    intro i
    simp only [List.mem_cons]
    constructor
    · rintro (hcon | hmem)
      · exact absurd hcon (by simp)
      · exact Or.inr ((ih i).mp hmem)
    · rintro (hcon | hmem)
      · exact absurd hcon (by simp)
      · exact Or.inr ((ih i).mpr hmem)
  | applyFailed j =>
    intro i
    simp only [List.mem_cons, List.not_mem_nil, or_false]
    constructor
    · rintro (hcon | hcon | hcon) <;> simp at hcon
      subst hcon; simp
    · rintro (hcon | hcon | hcon) <;> simp at hcon
      subst hcon; simp
  | applied j t ht ih =>
    intro i
    simp only [List.mem_cons]
    constructor
    · rintro (hcon | hcon | hcon | hcon | hmem)
      · exact absurd hcon (by simp)
      · exact absurd hcon (by simp)
      · simp at hcon; subst hcon; simp
      · exact absurd hcon (by simp)
      · simp [(ih i).mp hmem]
    · rintro (hcon | hcon | hcon | hcon | hmem)
      · exact absurd hcon (by simp)
      · simp at hcon; subst hcon; simp
      · exact absurd hcon (by simp)
      · exact absurd hcon (by simp)
      · simp [(ih i).mpr hmem]

/-- In a hook-shaped trace, a rule's `after_apply` hook runs only if its
`apply` was invoked. -/
lemma HookShape.after_has_apply {t : List REvent} (hs : HookShape t) :
    ∀ i, REvent.afterApplyCall i ∈ t → REvent.applyCall i ∈ t := by
  intro i hmem
  obtain ⟨n, hn⟩ := List.getElem?_of_mem hmem
  obtain ⟨m, rfl, hm⟩ := hs.after_follows_apply n i hn
  exact List.getElem?_mem hm

/-- Every event of the `evaluate_all_mut` trace concerns a rule at or past the
starting position. -/
lemma evalAllMutGoT_idx_ge {C E : Type} :
    ∀ (i : Nat) (rs : List (MutableRule C E)) (ctx : C),
      ∀ ev ∈ (evalAllMutGoT i rs ctx).1, i ≤ ev.idx := by
  intro i rs
  induction rs generalizing i with
  | nil => intro ctx ev hev; simp [evalAllMutGoT] at hev
  | cons r rs ih =>
    intro ctx ev hev
    cases h : r.evaluate ctx with
    | error e =>
      simp only [evalAllMutGoT, h] at hev
      simp at hev
      subst hev
      simp [REvent.idx]
    | ok b =>
      cases b with
      | false =>
        simp only [evalAllMutGoT, h, List.mem_cons] at hev
        rcases hev with rfl | hev'
        · simp [REvent.idx]
        · have := ih (i + 1) ctx ev hev'
          omega
      | true =>
        cases ha : r.apply ctx with
        | error e =>
          simp only [evalAllMutGoT, h, ha] at hev
          simp at hev
          rcases hev with rfl | rfl | rfl <;> simp [REvent.idx]
        | ok ctx' =>
          simp only [evalAllMutGoT, h, ha, List.mem_cons] at hev
          rcases hev with rfl | rfl | rfl | rfl | hev'
          · simp [REvent.idx]
          · simp [REvent.idx]
          · simp [REvent.idx]
          · simp [REvent.idx]
          · have := ih (i + 1) ctx' ev hev'
            omega

/-- When the `evaluate_all_mut` pass ends in an apply failure, the failing
rule's `before_apply` was invoked, its `after_apply` was not, and the pass
ends right at its `apply` event. -/
lemma evalAllMutGoT_apply_fail {C E : Type} :
    ∀ (i : Nat) (rs : List (MutableRule C E)) (ctx : C) (e : E),
      (evalAllMutGoT i rs ctx).2.2 =
          Except.error (RuleEngineError.Application e) →
      ∃ j, REvent.beforeApplyCall j ∈ (evalAllMutGoT i rs ctx).1 ∧
        REvent.afterApplyCall j ∉ (evalAllMutGoT i rs ctx).1 ∧
        ∃ t', (evalAllMutGoT i rs ctx).1 = t' ++ [REvent.applyCall j] := by
  intro i rs
  induction rs generalizing i with
  | nil => intro ctx e h; simp [evalAllMutGoT] at h
  | cons r rs ih =>
    intro ctx e h
    cases he : r.evaluate ctx with
    | error e' =>
      simp only [evalAllMutGoT, he] at h
      exact absurd h (by simp)
    | ok b =>
      cases b with
      | false =>
        simp only [evalAllMutGoT, he] at h ⊢
        obtain ⟨j, h1, h2, t', ht⟩ := ih (i + 1) ctx e h
        refine ⟨j, List.mem_cons_of_mem _ h1, ?_, REvent.evalCall i :: t', ?_⟩
        · intro hmem
          rcases List.mem_cons.mp hmem with hcon | hmem'
          · simp at hcon
          · exact h2 hmem'
        · rw [ht, List.cons_append]
      | true =>
        cases ha : r.apply ctx with
        | error e₂ =>
          simp only [evalAllMutGoT, he, ha] at h ⊢
          exact ⟨i, by simp, by simp,
            [REvent.evalCall i, REvent.beforeApplyCall i], rfl⟩
        | ok ctx' =>
          simp only [evalAllMutGoT, he, ha] at h ⊢
          obtain ⟨j, h1, h2, t', ht⟩ := ih (i + 1) ctx' e h
          have hj : i + 1 ≤ j := by
            have := evalAllMutGoT_idx_ge (i + 1) rs ctx' _ h1
            simpa [REvent.idx] using this
          refine ⟨j, by simp [h1], ?_,
            REvent.evalCall i :: REvent.beforeApplyCall i ::
              REvent.applyCall i :: REvent.afterApplyCall i :: t', ?_⟩
          · intro hmem
            simp only [List.mem_cons] at hmem
            rcases hmem with hcon | hcon | hcon | hcon | hmem'
            · simp at hcon
            · simp at hcon
            · simp at hcon
            · simp at hcon; omega
            · exact h2 hmem'
          · rw [ht]
            simp [List.cons_append]

/-- Every event of the `evaluate_first_mut` trace concerns a rule at or past
the starting position. -/
lemma evalFirstMutGoT_idx_ge {C E : Type} :
    ∀ (i : Nat) (rs : List (MutableRule C E)) (ctx : C),
      ∀ ev ∈ (evalFirstMutGoT i rs ctx).1, i ≤ ev.idx := by
  intro i rs
  induction rs generalizing i with
  | nil => intro ctx ev hev; simp [evalFirstMutGoT] at hev
  | cons r rs ih =>
    intro ctx ev hev
    cases h : r.evaluate ctx with
    | error e =>
      simp only [evalFirstMutGoT, h] at hev
      simp at hev
      subst hev
      simp [REvent.idx]
    | ok b =>
      cases b with
      | false =>
        simp only [evalFirstMutGoT, h, List.mem_cons] at hev
        rcases hev with rfl | hev'
        · simp [REvent.idx]
        · have := ih (i + 1) ctx ev hev'
          omega
      | true =>
        cases ha : r.apply ctx with
        | error e =>
          simp only [evalFirstMutGoT, h, ha] at hev
          simp at hev
          rcases hev with rfl | rfl | rfl <;> simp [REvent.idx]
        | ok ctx' =>
          simp only [evalFirstMutGoT, h, ha] at hev
          simp at hev
          rcases hev with rfl | rfl | rfl | rfl <;> simp [REvent.idx]

/-- When the `evaluate_first_mut` pass ends in an apply failure, the failing
rule's `before_apply` was invoked, its `after_apply` was not, and the pass
ends right at its `apply` event. -/
lemma evalFirstMutGoT_apply_fail {C E : Type} :
    ∀ (i : Nat) (rs : List (MutableRule C E)) (ctx : C) (e : E),
      (evalFirstMutGoT i rs ctx).2.2 =
          Except.error (RuleEngineError.Application e) →
      ∃ j, REvent.beforeApplyCall j ∈ (evalFirstMutGoT i rs ctx).1 ∧
        REvent.afterApplyCall j ∉ (evalFirstMutGoT i rs ctx).1 ∧
        ∃ t', (evalFirstMutGoT i rs ctx).1 = t' ++ [REvent.applyCall j] := by
  intro i rs
  induction rs generalizing i with
  | nil => intro ctx e h; simp [evalFirstMutGoT] at h
  | cons r rs ih =>
    intro ctx e h
    cases he : r.evaluate ctx with
    | error e' =>
      simp only [evalFirstMutGoT, he] at h
      exact absurd h (by simp)
    | ok b =>
      cases b with
      | false =>
        simp only [evalFirstMutGoT, he] at h ⊢
        obtain ⟨j, h1, h2, t', ht⟩ := ih (i + 1) ctx e h
        refine ⟨j, List.mem_cons_of_mem _ h1, ?_, REvent.evalCall i :: t', ?_⟩
        · intro hmem
          rcases List.mem_cons.mp hmem with hcon | hmem'
          · simp at hcon
          · exact h2 hmem'
        · rw [ht, List.cons_append]
      | true =>
        cases ha : r.apply ctx with
        | error e₂ =>
          simp only [evalFirstMutGoT, he, ha] at h ⊢
          exact ⟨i, by simp, by simp,
            [REvent.evalCall i, REvent.beforeApplyCall i], rfl⟩
        | ok ctx' =>
          simp only [evalFirstMutGoT, he, ha] at h
          exact absurd h (by simp)

/-- Mutable example rule whose `evaluate` always returns `true` and whose
`apply` always errors with code 3. -/
def mApplyFail : MutableRule Nat Nat :=
  { name := "applyFail", priority := 0
    evaluate := fun _ => Except.ok true
    apply := fun _ => Except.error 3 }

/-- C6 counterexample: the claim as stated says both hooks are skipped when
`apply` fails, but in the code `before_apply` runs before `apply`
(src/engine.rs lines 156-157), so on a single-rule engine whose `apply`
errors, the pass fails with `Application` and the trace nevertheless contains
the `before_apply` invocation. -/
theorem claim_c6_counterexample :
    ((MutableRuleEngine.new [mApplyFail] none).evaluate_all_mut 0).2 =
        Except.error (RuleEngineError.Application 3) ∧
    REvent.beforeApplyCall 0 ∈
      (evalAllMutGoT 0 (MutableRuleEngine.new [mApplyFail] none)._rules 0).1 := by
  have hr : (MutableRuleEngine.new [mApplyFail] none)._rules = [mApplyFail] :=
    mut_new_rules_of_sorted _ (by simp)
  constructor
  · rw [MutableRuleEngine.evaluate_all_mut, hr]
    rfl
  · rw [hr]
    simp [evalAllMutGoT, mApplyFail]

/-- C6 (amended): In `evaluate_all_mut` and `evaluate_first_mut`, the traces
fit the hook-shape grammar — per visited rule, only `evaluate` runs when it
returns `false` or errors (no hooks), and otherwise `before_apply` is invoked
immediately before `apply` and `after_apply` immediately after a successful
`apply`; a rule's hooks occur exactly when its `apply` is invoked; and when
`apply` fails the pass ends at that `apply` event with the failing rule's
`after_apply` skipped but its `before_apply` already invoked (the claim's
statement that both hooks are skipped on apply failure is false for
`before_apply`, which necessarily precedes `apply`). -/
theorem claim_c6_hooks_amended {C E : Type} (meng : MutableRuleEngine C E)
    (ctx : C) :
    HookShape (evalAllMutGoT 0 meng._rules ctx).1 ∧
    (∀ n i, (evalAllMutGoT 0 meng._rules ctx).1[n]? =
        some (REvent.beforeApplyCall i) →
      (evalAllMutGoT 0 meng._rules ctx).1[n + 1]? = some (REvent.applyCall i)) ∧
    (∀ n i, (evalAllMutGoT 0 meng._rules ctx).1[n]? =
        some (REvent.afterApplyCall i) →
      ∃ m, n = m + 1 ∧
        (evalAllMutGoT 0 meng._rules ctx).1[m]? = some (REvent.applyCall i)) ∧
    (∀ i, REvent.applyCall i ∈ (evalAllMutGoT 0 meng._rules ctx).1 ↔
      REvent.beforeApplyCall i ∈ (evalAllMutGoT 0 meng._rules ctx).1) ∧
    (∀ i, REvent.afterApplyCall i ∈ (evalAllMutGoT 0 meng._rules ctx).1 →
      REvent.applyCall i ∈ (evalAllMutGoT 0 meng._rules ctx).1) ∧
    (∀ e, (meng.evaluate_all_mut ctx).2 =
        Except.error (RuleEngineError.Application e) →
      ∃ j, REvent.beforeApplyCall j ∈ (evalAllMutGoT 0 meng._rules ctx).1 ∧
        REvent.afterApplyCall j ∉ (evalAllMutGoT 0 meng._rules ctx).1 ∧
        ∃ t', (evalAllMutGoT 0 meng._rules ctx).1 =
          t' ++ [REvent.applyCall j]) ∧
    HookShape (evalFirstMutGoT 0 meng._rules ctx).1 ∧
    (∀ n i, (evalFirstMutGoT 0 meng._rules ctx).1[n]? =
        some (REvent.beforeApplyCall i) →
      (evalFirstMutGoT 0 meng._rules ctx).1[n + 1]? = some (REvent.applyCall i)) ∧
    (∀ n i, (evalFirstMutGoT 0 meng._rules ctx).1[n]? =
        some (REvent.afterApplyCall i) →
      ∃ m, n = m + 1 ∧
        (evalFirstMutGoT 0 meng._rules ctx).1[m]? = some (REvent.applyCall i)) ∧
    (∀ i, REvent.applyCall i ∈ (evalFirstMutGoT 0 meng._rules ctx).1 ↔
      REvent.beforeApplyCall i ∈ (evalFirstMutGoT 0 meng._rules ctx).1) ∧
    (∀ i, REvent.afterApplyCall i ∈ (evalFirstMutGoT 0 meng._rules ctx).1 →
      REvent.applyCall i ∈ (evalFirstMutGoT 0 meng._rules ctx).1) ∧
    (∀ e, (meng.evaluate_first_mut ctx).2 =
        Except.error (RuleEngineError.Application e) →
      ∃ j, REvent.beforeApplyCall j ∈ (evalFirstMutGoT 0 meng._rules ctx).1 ∧
        REvent.afterApplyCall j ∉ (evalFirstMutGoT 0 meng._rules ctx).1 ∧
        ∃ t', (evalFirstMutGoT 0 meng._rules ctx).1 =
          t' ++ [REvent.applyCall j]) := by
  have hs₁ := evalAllMutGoT_hookShape 0 meng._rules ctx
  have hs₂ := evalFirstMutGoT_hookShape 0 meng._rules ctx
  refine ⟨hs₁, hs₁.before_imm_apply, hs₁.after_follows_apply,
    hs₁.apply_iff_before, hs₁.after_has_apply, ?_,
    hs₂, hs₂.before_imm_apply, hs₂.after_follows_apply,
    hs₂.apply_iff_before, hs₂.after_has_apply, ?_⟩
  · intro e h
    apply evalAllMutGoT_apply_fail 0 meng._rules ctx e
    rw [evalAllMutGoT_snd]
    exact h
  · intro e h
    apply evalFirstMutGoT_apply_fail 0 meng._rules ctx e
    rw [evalFirstMutGoT_snd]
    exact h

/-- Witness for the amended C6: on the single-rule engine whose `apply`
fails, the amended theorem's apply-failure conjunct yields the failing rule's
`before_apply` in the trace, its `after_apply` absent, and the trace ending at
the `apply` event. -/
theorem claim_c6_hooks_amended_witness :
    ∃ j, REvent.beforeApplyCall j ∈
        (evalAllMutGoT 0 (MutableRuleEngine.new [mApplyFail] none)._rules 0).1 ∧
      REvent.afterApplyCall j ∉
        (evalAllMutGoT 0 (MutableRuleEngine.new [mApplyFail] none)._rules 0).1 ∧
      ∃ t', (evalAllMutGoT 0 (MutableRuleEngine.new [mApplyFail] none)._rules 0).1 =
        t' ++ [REvent.applyCall j] :=
  (claim_c6_hooks_amended (MutableRuleEngine.new [mApplyFail] none) 0).2.2.2.2.2.1
    3
    (by
      rw [MutableRuleEngine.evaluate_all_mut,
        mut_new_rules_of_sorted [mApplyFail] (by simp)]
      rfl)

/-- C9: The builder pipeline `new().with_rules(rs).priority(o).build()`
produces exactly the engine `RuleEngine::new(rs, Some(o))` (same internal rule
sequence and same order field), and omitting the order — builder default, or
passing `None` to `new` — is equivalent to choosing `Asc`. -/
theorem claim_c9_builder_equiv {C O E : Type} (rs : List (Rule C O E))
    (o : PriorityOrder) :
    ((RuleEngineBuilder.new.with_rules rs).priority o).build =
        RuleEngine.new rs (some o) ∧
    (RuleEngineBuilder.new.with_rules rs).build = RuleEngine.new rs none ∧
    RuleEngine.new rs none = RuleEngine.new rs (some PriorityOrder.Asc) :=
  ⟨rfl, rfl, rfl⟩

end RuleKit
